import Mathlib

/-!
Shallow embedding of the BadgerDB buffer manager (`src/buffer.cpp`).

The buffer manager caches disk pages in a fixed array of frames.  Each frame
has a descriptor (`BufDesc`); a hash table maps `(File*, PageId)` keys to frame
numbers; the clock hand drives second-chance eviction in `allocBuf`.

Modelling conventions:
* `File*` pointers are opaque comparable handles: `FileId := Nat`; a possibly
  NULL pointer field is `Option FileId`.
* The hash table is an association list keyed by `(Option FileId, PageId)`
  (the C++ code passes raw `File*` values, which may be NULL, as keys).
* Calls into the backing store (`File::readPage`, `writePage`,
  `allocatePage`, `deletePage`) are recorded in an `IOEvent` trace; the
  outcome of a read / allocation is supplied by a `Disk` oracle.
* C++ exceptions become `Except BufErr`; since an exception leaves the
  already-performed mutations in place, every operation returns the buffer
  state (and trace) alongside the `Except` value.
* The scan loop of `allocBuf` is embedded with explicit fuel: `none` means
  the loop did not break within `fuel` iterations.  (In the source the loop
  guard variable `numScanned` is never incremented, so the loop exits only
  through `break`; we prove it always breaks within `2 * numBufs` steps
  whenever the all-pinned precondition check passes.)
* The global `NumBufs` is set to the constructor argument and the claims
  concern a single manager instance, so it always equals the member
  `numBufs = bufDescTable.length`.
-/

namespace BadgerDb

abbrev FileId := Nat
abbrev PageId := Nat
abbrev FrameId := Nat

/-- A disk page; `page_number` is the page's id inside its file, `data`
abstracts the payload bytes. -/
structure Page where
  page_number : PageId
  data : Nat
deriving DecidableEq, Repr

def defaultPage : Page := ⟨0, 0⟩

/-- Per-frame metadata, mirroring `BufDesc` from `buffer.h`. -/
structure BufDesc where
  file : Option FileId
  pageNo : PageId
  frameNo : FrameId
  pinCnt : Nat
  dirty : Bool
  refbit : Bool
  valid : Bool
deriving DecidableEq, Repr

def defaultDesc : BufDesc :=
  { file := none, pageNo := 0, frameNo := 0, pinCnt := 0,
    dirty := false, refbit := false, valid := false }

/-- Modelled from the spec: `BufDesc::Clear()` (declared in `buffer.h`, which
is not part of the sources) resets the descriptor to the empty state —
`valid=false`, `dirty=false`, `referenced=false`, `pinCount=0`, owning
file/page cleared. -/
def BufDesc.Clear (b : BufDesc) : BufDesc :=
  { b with file := none, pageNo := 0, pinCnt := 0,
           dirty := false, refbit := false, valid := false }

/-- Modelled from the spec: `BufDesc::Set(file, pageNo)` (declared in
`buffer.h`, not in the sources) records a newly cached page: descriptor set to
`(fileHandle=file, pageId=pageNo, pinCount=1, referenced=true, dirty=false,
valid=true)`. -/
def BufDesc.Set (b : BufDesc) (f : FileId) (p : PageId) : BufDesc :=
  { b with file := some f, pageNo := p, pinCnt := 1,
           dirty := false, refbit := true, valid := true }

/-- Modelled from the spec: the `BufHashTbl` contract — `lookup` may report
"not present", `insert` adds an entry, `remove` deletes the entry for a key
(removing an absent key is a no-op).  Keys are the raw `(File*, pageNo)`
pairs the C++ code passes in. -/
abbrev HashTbl := List (Option FileId × PageId × FrameId)

def htLookup (ht : HashTbl) (f : Option FileId) (p : PageId) : Option FrameId :=
  match ht.find? (fun e => decide (e.1 = f ∧ e.2.1 = p)) with
  | some e => some e.2.2
  | none => none

def htInsert (ht : HashTbl) (f : Option FileId) (p : PageId) (fr : FrameId) : HashTbl :=
  (f, p, fr) :: ht

def htRemove (ht : HashTbl) (f : Option FileId) (p : PageId) : HashTbl :=
  ht.filter (fun e => !(decide (e.1 = f ∧ e.2.1 = p)))

/-- The mutable state of a `BufMgr` instance: descriptor table, page pool,
hash table and clock hand. -/
structure BufState where
  bufDescTable : List BufDesc
  bufPool : List Page
  hashTable : HashTbl
  clockHand : Nat
deriving DecidableEq, Repr

def BufState.numBufs (s : BufState) : Nat := s.bufDescTable.length

/-- Descriptor of frame `i` (out-of-range reads return `defaultDesc`; the
C++ code never indexes out of range on the paths we reason about). -/
def descD (s : BufState) (i : Nat) : BufDesc := s.bufDescTable.getD i defaultDesc

def poolD (s : BufState) (i : Nat) : Page := s.bufPool.getD i defaultPage

/-- Apply an update to the descriptor of frame `i`. -/
def setDesc (s : BufState) (i : Nat) (g : BufDesc → BufDesc) : BufState :=
  { s with bufDescTable := s.bufDescTable.set i (g (descD s i)) }

/-- `BufMgr::BufMgr(bufs)`: every descriptor gets `frameNo = i` and
`valid = false` (the other fields start from the default-constructed
descriptor, which `buffer.h` clears); the clock hand starts at the last
index (`bufs - 1`, natural subtraction as the C++ value is only used modulo
`bufs`). -/
def BufMgr.init (bufs : Nat) : BufState :=
  { bufDescTable := (List.range bufs).map (fun i => { defaultDesc with frameNo := i }),
    bufPool := List.replicate bufs defaultPage,
    hashTable := [],
    clockHand := bufs - 1 }

/-- The exceptions thrown by `buffer.cpp` (plus the backing store's
`InvalidPageException` surfaced by `File::readPage`). -/
inductive BufErr where
  | bufferExceeded
  | pageNotPinned (file : FileId) (page : PageId) (frame : FrameId)
  | pagePinned (file : FileId) (page : PageId) (frame : FrameId)
  | badBuffer (frame : FrameId)
  | hashNotFound
  | invalidPage
deriving DecidableEq, Repr

/-- Calls made to the backing store, in order. -/
inductive IOEvent where
  | readPage (f : FileId) (p : PageId)
  | writePage (f : Option FileId) (pg : Page)
  | allocatePage (f : FileId)
  | deletePage (f : FileId) (p : PageId)
deriving DecidableEq, Repr

/-- Oracle for the backing store: the outcome of `File::readPage` (`none` =
`InvalidPageException`) and the fresh page returned by `File::allocatePage`. -/
structure Disk where
  readPage : FileId → PageId → Option Page
  allocatePage : FileId → Page

/-- `BufMgr::advanceClock()`: advance the clock hand with wraparound. -/
def advanceClock (s : BufState) : BufState :=
  { s with clockHand := (s.clockHand + 1) % s.numBufs }

/-- The scan loop of `BufMgr::allocBuf` (`while (numScanned < 2*bufs)`),
with fuel.  Returns the state at loop exit, the `found` flag and the final
`numScanned`.  Mirroring the source, `numScanned` is threaded through but
never incremented; the loop exits through `break` on an invalid frame
(`found` stays `false`) or on a valid, unreferenced, unpinned frame (its
hash entry removed, `found := true`), or when the guard fails. -/
def allocScan (fuel bufs numScanned : Nat) (s : BufState) :
    Option (BufState × Bool × Nat) :=
  match fuel with
  | 0 => none
  | fuel + 1 =>
    if numScanned < 2 * bufs then
      let s1 := advanceClock s
      let tmpbuf := descD s1 s1.clockHand
      if tmpbuf.valid = false then
        some (s1, false, numScanned)
      else if tmpbuf.refbit = false then
        if tmpbuf.pinCnt = 0 then
          some ({ s1 with hashTable := htRemove s1.hashTable tmpbuf.file tmpbuf.pageNo },
                true, numScanned)
        else
          allocScan fuel bufs numScanned s1
      else
        allocScan fuel bufs numScanned (setDesc s1 s1.clockHand (fun b => { b with refbit := false }))
    else
      some (s, false, numScanned)

/-- `BufMgr::allocBuf(frame)`: count pinned frames and throw
`BufferExceededException` if all are pinned; otherwise run the clock scan,
re-check the (dead) `!found && numScanned >= 2*bufs` throw, write the victim
page back if its descriptor is dirty, and return the clock hand as the
victim frame.  `none` = the scan loop did not break within `fuel`
iterations. -/
def allocBufFuel (fuel : Nat) (s : BufState) :
    Option (Except BufErr FrameId × BufState × List IOEvent) :=
  let bufs := s.numBufs
  let numPinned := s.bufDescTable.countP (fun b => decide (0 < b.pinCnt))
  if numPinned = bufs then
    some (.error .bufferExceeded, s, [])
  else
    match allocScan fuel bufs 0 s with
    | none => none
    | some (s1, found, numScanned) =>
      if found = false ∧ 2 * bufs ≤ numScanned then
        some (.error .bufferExceeded, s1, [])
      else
        let tmpbuf := descD s1 s1.clockHand
        let tr : List IOEvent :=
          if tmpbuf.dirty then [.writePage tmpbuf.file (poolD s1 s1.clockHand)] else []
        some (.ok s1.clockHand, s1, tr)

/-- `BufMgr::readPage(file, pageNo, page)`: on a hash hit set the refbit,
bump the pin count and return the frame; on a miss read the page from disk
first (an `InvalidPageException` percolates up before any pool mutation),
then `allocBuf`, store the page, insert the hash entry and `Set` the
descriptor. -/
def readPageOp (dsk : Disk) (fuel : Nat) (file : FileId) (pageNo : PageId) (s : BufState) :
    Option (Except BufErr FrameId × BufState × List IOEvent) :=
  match htLookup s.hashTable (some file) pageNo with
  | some frameNo =>
    some (.ok frameNo,
          setDesc s frameNo (fun b => { b with refbit := true, pinCnt := b.pinCnt + 1 }),
          [])
  | none =>
    match dsk.readPage file pageNo with
    | none => some (.error .invalidPage, s, [.readPage file pageNo])
    | some p =>
      match allocBufFuel fuel s with
      | none => none
      | some (.error e, s1, tr) => some (.error e, s1, .readPage file pageNo :: tr)
      | some (.ok frameNo, s1, tr) =>
        let s2 := { s1 with bufPool := s1.bufPool.set frameNo p }
        let s3 := { s2 with hashTable := htInsert s2.hashTable (some file) pageNo frameNo }
        let s4 := setDesc s3 frameNo (fun b => b.Set file pageNo)
        some (.ok frameNo, s4, .readPage file pageNo :: tr)

/-- `BufMgr::unPinPage(file, pageNo, dirty)`: the hash lookup's
`HashNotFoundException` propagates; a zero pin count throws
`PageNotPinnedException`; otherwise decrement the pin count and set the
dirty bit when asked to. -/
def unPinPageOp (file : FileId) (pageNo : PageId) (dirty : Bool) (s : BufState) :
    Except BufErr Unit × BufState × List IOEvent :=
  match htLookup s.hashTable (some file) pageNo with
  | none => (.error .hashNotFound, s, [])
  | some frameNo =>
    if (descD s frameNo).pinCnt = 0 then
      (.error (.pageNotPinned file pageNo frameNo), s, [])
    else
      let s1 := setDesc s frameNo (fun b => { b with pinCnt := b.pinCnt - 1 })
      let s2 := if dirty then setDesc s1 frameNo (fun b => { b with dirty := true }) else s1
      (.ok (), s2, [])

/-- `BufMgr::allocPage(file, pageNo, page)`: allocate a fresh page in the
backing file first, then `allocBuf`; on success record the hash entry,
`Set` the descriptor and store the page. -/
def allocPageOp (dsk : Disk) (fuel : Nat) (file : FileId) (s : BufState) :
    Option (Except BufErr (PageId × FrameId) × BufState × List IOEvent) :=
  let oPg := dsk.allocatePage file
  match allocBufFuel fuel s with
  | none => none
  | some (.error e, s1, tr) => some (.error e, s1, .allocatePage file :: tr)
  | some (.ok frameNo, s1, tr) =>
    let pageNo := oPg.page_number
    let s2 := { s1 with hashTable := htInsert s1.hashTable (some file) pageNo frameNo }
    let s3 := setDesc s2 frameNo (fun b => b.Set file pageNo)
    let s4 := { s3 with bufPool := s3.bufPool.set frameNo oPg }
    some (.ok (pageNo, frameNo), s4, .allocatePage file :: tr)

/-- `BufMgr::disposePage(file, pageNo)`: the hash lookup's
`HashNotFoundException` is deliberately not handled ("don't handle
exception") and propagates; otherwise clear the frame, remove the hash
entry and delete the page from the file. -/
def disposePageOp (file : FileId) (pageNo : PageId) (s : BufState) :
    Except BufErr Unit × BufState × List IOEvent :=
  match htLookup s.hashTable (some file) pageNo with
  | none => (.error .hashNotFound, s, [])
  | some frameNo =>
    let s1 := setDesc s frameNo BufDesc.Clear
    let s2 := { s1 with hashTable := htRemove s1.hashTable (some file) pageNo }
    (.ok (), s2, [.deletePage file pageNo])

/-- The body of `BufMgr::flushFile`'s loop, from index `i` with `k`
iterations left: skip frames of other files, throw `BadBufferException` on
an invalid frame of this file, `PagePinnedException` on a pinned one;
otherwise write back if dirty (via `bufDescTable[tmpbuf->frameNo]`, as the
source does), clear the dirty bit, remove the hash entry and clear the
frame. -/
def flushFrames (file : FileId) : Nat → Nat → BufState → List IOEvent →
    Except BufErr Unit × BufState × List IOEvent
  | 0, _, s, tr => (.ok (), s, tr)
  | k + 1, i, s, tr =>
    let tmpbuf := descD s i
    if tmpbuf.file = some file then
      if tmpbuf.valid = false then
        (.error (.badBuffer tmpbuf.frameNo), s, tr)
      else if 0 < tmpbuf.pinCnt then
        (.error (.pagePinned file tmpbuf.pageNo tmpbuf.frameNo), s, tr)
      else
        let frameNo := tmpbuf.frameNo
        let sw := if tmpbuf.dirty then setDesc s i (fun b => { b with dirty := false }) else s
        let trw := if tmpbuf.dirty
          then tr ++ [.writePage (descD s frameNo).file (poolD s frameNo)] else tr
        let s2 := { sw with hashTable := htRemove sw.hashTable (some file) tmpbuf.pageNo }
        let s3 := setDesc s2 i BufDesc.Clear
        flushFrames file k (i + 1) s3 trw
    else
      flushFrames file k (i + 1) s tr

/-- `BufMgr::flushFile(file)`: iterate over all `numBufs` frames. -/
def flushFileOp (file : FileId) (s : BufState) :
    Except BufErr Unit × BufState × List IOEvent :=
  flushFrames file s.numBufs 0 s []

/-- All descriptor fields except `refbit` agree between two states. -/
def descPreserved (s s1 : BufState) : Prop :=
  ∀ i, (descD s1 i).pinCnt = (descD s i).pinCnt ∧
       (descD s1 i).valid = (descD s i).valid ∧
       (descD s1 i).file = (descD s i).file ∧
       (descD s1 i).pageNo = (descD s i).pageNo ∧
       (descD s1 i).dirty = (descD s i).dirty ∧
       (descD s1 i).frameNo = (descD s i).frameNo

/-- Invariant: an invalid frame is never pinned. -/
def InvPin (s : BufState) : Prop :=
  ∀ i, (descD s i).valid = false → (descD s i).pinCnt = 0

/-- Invariant: every hash entry points at an in-range, valid frame that
caches exactly that key. -/
def InvHash (s : BufState) : Prop :=
  ∀ e ∈ s.hashTable, e.2.2 < s.bufDescTable.length ∧
    (descD s e.2.2).valid = true ∧
    (descD s e.2.2).file = e.1 ∧ (descD s e.2.2).pageNo = e.2.1

/-- Pool states reachable from a fresh pool by any interleaving of fetches
(`readPage`), unpins, page allocations and disposals, with arbitrary disk
oracles, fuels and outcomes (successes and propagated exceptions alike). -/
inductive Reach : BufState → Prop where
  | init (bufs : Nat) : Reach (BufMgr.init bufs)
  | read (dsk : Disk) (fuel : Nat) (f : FileId) (p : PageId) (s : BufState)
      (r : Except BufErr FrameId) (s' : BufState) (tr : List IOEvent) :
      Reach s → readPageOp dsk fuel f p s = some (r, s', tr) → Reach s'
  | unpin (f : FileId) (p : PageId) (d : Bool) (s : BufState)
      (r : Except BufErr Unit) (s' : BufState) (tr : List IOEvent) :
      Reach s → unPinPageOp f p d s = (r, s', tr) → Reach s'
  | alloc (dsk : Disk) (fuel : Nat) (f : FileId) (s : BufState)
      (r : Except BufErr (PageId × FrameId)) (s' : BufState) (tr : List IOEvent) :
      Reach s → allocPageOp dsk fuel f s = some (r, s', tr) → Reach s'
  | dispose (f : FileId) (p : PageId) (s : BufState)
      (r : Except BufErr Unit) (s' : BufState) (tr : List IOEvent) :
      Reach s → disposePageOp f p s = (r, s', tr) → Reach s'

/-- The write-backs `flushFile` performs for frames `[i, i+k)`: each frame
owned by `fid` whose dirty bit is set contributes exactly one `writePage`
of its pool slot, in index order; clean frames contribute nothing. -/
def flushTrace (s : BufState) (fid : FileId) (i k : Nat) : List IOEvent :=
  ((List.range' i k).filter
      (fun j => (descD s j).file == some fid && (descD s j).dirty)).map
    (fun j => .writePage (some fid) (poolD s j))

/-! ### Concrete fixtures used by witnesses and counterexamples -/

/-- A one-frame pool caching page 7 of file 5, pinned once: the state
produced by `readPage 5 7` on a fresh one-frame pool. -/
def onePinnedState : BufState :=
  { bufDescTable := [{ file := some 5, pageNo := 7, frameNo := 0, pinCnt := 1,
                       dirty := false, refbit := true, valid := true }],
    bufPool := [⟨7, 42⟩],
    hashTable := [(some 5, 7, 0)],
    clockHand := 0 }

/-- The same pool after `unPinPage 5 7 false`: pin count zero, refbit still
set. -/
def oneUnpinnedState : BufState :=
  { bufDescTable := [{ file := some 5, pageNo := 7, frameNo := 0, pinCnt := 0,
                       dirty := false, refbit := true, valid := true }],
    bufPool := [⟨7, 42⟩],
    hashTable := [(some 5, 7, 0)],
    clockHand := 0 }

/-- The pool `allocBuf` leaves behind when run on `oneUnpinnedState`:
refbit cleared by the scan's second chance, hash entry removed — but the
descriptor still valid and owned by file 5. -/
def c4VictimState : BufState :=
  { bufDescTable := [{ file := some 5, pageNo := 7, frameNo := 0, pinCnt := 0,
                       dirty := false, refbit := false, valid := true }],
    bufPool := [⟨7, 42⟩],
    hashTable := [],
    clockHand := 0 }

/-- `disposePage` result on `onePinnedState`: frame cleared, entry gone. -/
def c6DisposedState : BufState :=
  { bufDescTable := [defaultDesc], bufPool := [⟨7, 42⟩], hashTable := [], clockHand := 0 }

/-- A disk on which only page 7 of file 5 exists. -/
def diskFive : Disk :=
  { readPage := fun f p => if f = 5 ∧ p = 7 then some ⟨7, 42⟩ else none,
    allocatePage := fun _ => ⟨9, 0⟩ }

/-- A disk on which every read fails. -/
def noDisk : Disk := { readPage := fun _ _ => none, allocatePage := fun _ => ⟨0, 0⟩ }

end BadgerDb

namespace BadgerDb

/-! ### Basic lemmas about the state helpers -/

theorem length_setDesc (s : BufState) (i : Nat) (g : BufDesc → BufDesc) :
    (setDesc s i g).bufDescTable.length = s.bufDescTable.length := by
  simp [setDesc]

theorem numBufs_setDesc (s : BufState) (i : Nat) (g : BufDesc → BufDesc) :
    (setDesc s i g).numBufs = s.numBufs := by
  simp [BufState.numBufs, setDesc]

theorem descD_setDesc_self (s : BufState) (i : Nat) (g : BufDesc → BufDesc)
    (h : i < s.bufDescTable.length) : descD (setDesc s i g) i = g (descD s i) := by
  simp [descD, setDesc, List.getD, List.getElem?_set, h]

theorem descD_setDesc_ne (s : BufState) (i j : Nat) (g : BufDesc → BufDesc)
    (h : j ≠ i) : descD (setDesc s i g) j = descD s j := by
  simp [descD, setDesc, List.getD, List.getElem?_set, Ne.symm h]

theorem setDesc_oob (s : BufState) (i : Nat) (g : BufDesc → BufDesc)
    (h : s.bufDescTable.length ≤ i) : (setDesc s i g).bufDescTable = s.bufDescTable := by
  simp [setDesc, List.set_eq_of_length_le h]

theorem descD_oob (s : BufState) (i : Nat) (h : s.bufDescTable.length ≤ i) :
    descD s i = defaultDesc := by
  simp [descD, List.getD, List.getElem?_eq_none h]

theorem descD_pos_lt (s : BufState) (i : Nat) (h : 0 < (descD s i).pinCnt) :
    i < s.bufDescTable.length := by
  by_contra hge
  rw [descD_oob s i (Nat.le_of_not_lt hge)] at h
  exact absurd h (by decide)

/-! ### Lemmas about the hash-table model -/

theorem htLookup_cons_self (ht : HashTbl) (f : Option FileId) (p : PageId) (fr : FrameId) :
    htLookup ((f, p, fr) :: ht) f p = some fr := by
  simp [htLookup, List.find?]

theorem htLookup_remove_self (ht : HashTbl) (f : Option FileId) (p : PageId) :
    htLookup (htRemove ht f p) f p = none := by
  induction ht with
  | nil => rfl
  | cons e t ih =>
    by_cases hk : e.1 = f ∧ e.2.1 = p
    · simpa [htRemove, List.filter, hk] using ih
    · have : htRemove (e :: t) f p = e :: htRemove t f p := by
        simp [htRemove, List.filter, hk]
      rw [this]
      simpa [htLookup, List.find?, hk] using ih

theorem htLookup_remove_ne (ht : HashTbl) (f f' : Option FileId) (p p' : PageId)
    (h : ¬ (f' = f ∧ p' = p)) :
    htLookup (htRemove ht f p) f' p' = htLookup ht f' p' := by
  induction ht with
  | nil => rfl
  | cons e t ih =>
    by_cases hk : e.1 = f ∧ e.2.1 = p
    · have hne : ¬ (e.1 = f' ∧ e.2.1 = p') := by
        rintro ⟨h1, h2⟩
        exact h ⟨by rw [← h1]; exact hk.1, by rw [← h2]; exact hk.2⟩
      have : htRemove (e :: t) f p = htRemove t f p := by
        simp [htRemove, List.filter, hk]
      rw [this, ih]
      simp [htLookup, List.find?, hne]
    · have : htRemove (e :: t) f p = e :: htRemove t f p := by
        simp [htRemove, List.filter, hk]
      rw [this]
      by_cases he : e.1 = f' ∧ e.2.1 = p'
      · simp [htLookup, List.find?, he]
      · simpa [htLookup, List.find?, he] using ih

theorem htMem_remove (ht : HashTbl) (f : Option FileId) (p : PageId)
    (e : Option FileId × PageId × FrameId) (h : e ∈ htRemove ht f p) : e ∈ ht :=
  List.mem_of_mem_filter h

end BadgerDb

namespace BadgerDb

/-! ### The clock scan: characterization -/

theorem descD_advanceClock (s : BufState) (i : Nat) :
    descD (advanceClock s) i = descD s i := rfl

theorem advanceClock_lt (s : BufState) (h : 0 < s.numBufs) :
    (advanceClock s).clockHand < s.numBufs :=
  Nat.mod_lt _ h

theorem descPreserved_refl (s : BufState) : descPreserved s s :=
  fun _ => ⟨rfl, rfl, rfl, rfl, rfl, rfl⟩

theorem descPreserved_trans {s s1 s2 : BufState}
    (h1 : descPreserved s s1) (h2 : descPreserved s1 s2) : descPreserved s s2 := by
  intro i
  obtain ⟨a1, b1, c1, d1, e1, f1⟩ := h1 i
  obtain ⟨a2, b2, c2, d2, e2, f2⟩ := h2 i
  exact ⟨a2.trans a1, b2.trans b1, c2.trans c1, d2.trans d1, e2.trans e1, f2.trans f1⟩

theorem descPreserved_clearRef (s : BufState) (i : Nat) :
    descPreserved s (setDesc s i (fun b => { b with refbit := false })) := by
  intro j
  by_cases hij : j = i
  · subst hij
    by_cases hlt : j < s.bufDescTable.length
    · rw [descD_setDesc_self s j _ hlt]
      exact ⟨rfl, rfl, rfl, rfl, rfl, rfl⟩
    · rw [descD, setDesc_oob s j _ (Nat.le_of_not_lt hlt)]
      exact ⟨rfl, rfl, rfl, rfl, rfl, rfl⟩
  · rw [descD_setDesc_ne s i j _ hij]
    exact ⟨rfl, rfl, rfl, rfl, rfl, rfl⟩

/-- Master characterization of the scan loop of `allocBuf`: `numScanned` is
returned unchanged; the pool, the table length and every descriptor field
except `refbit` are preserved; on a `found` break exactly the victim's hash
entry is removed and the victim (the frame under the final clock hand) is
valid, unreferenced and unpinned; on a `found = false` exit either the
victim frame is invalid and the hash table untouched, or the loop guard was
false from the start and the state is returned untouched. -/
theorem allocScan_spec (fuel bufs numScanned : Nat) (s s1 : BufState)
    (found : Bool) (ns' : Nat)
    (h : allocScan fuel bufs numScanned s = some (s1, found, ns')) :
    ns' = numScanned ∧
    s1.bufPool = s.bufPool ∧
    s1.bufDescTable.length = s.bufDescTable.length ∧
    descPreserved s s1 ∧
    (found = true →
       s1.hashTable = htRemove s.hashTable (descD s1 s1.clockHand).file
         (descD s1 s1.clockHand).pageNo ∧
       (descD s1 s1.clockHand).pinCnt = 0 ∧
       (descD s1 s1.clockHand).valid = true ∧
       (descD s1 s1.clockHand).refbit = false ∧
       (0 < s.numBufs → s1.clockHand < s.numBufs)) ∧
    (found = false →
       s1.hashTable = s.hashTable ∧
       (((descD s1 s1.clockHand).valid = false ∧ (0 < s.numBufs → s1.clockHand < s.numBufs)) ∨
        (s1 = s ∧ ¬ numScanned < 2 * bufs))) := by
  induction fuel generalizing s with
  | zero => simp [allocScan] at h
  | succ fuel ih =>
    rw [allocScan] at h
    by_cases hg : numScanned < 2 * bufs
    · rw [if_pos hg] at h
      dsimp only at h
      by_cases hv : (descD (advanceClock s) (advanceClock s).clockHand).valid = false
      · rw [if_pos hv] at h
        simp only [Option.some.injEq, Prod.mk.injEq] at h
        obtain ⟨rfl, rfl, rfl⟩ := h
        exact ⟨rfl, rfl, rfl, fun i => ⟨rfl, rfl, rfl, rfl, rfl, rfl⟩,
          fun hc => absurd hc (by decide),
          fun _ => ⟨rfl, Or.inl ⟨hv, advanceClock_lt s⟩⟩⟩
      · rw [if_neg hv] at h
        have hvt : (descD (advanceClock s) (advanceClock s).clockHand).valid = true := by
          revert hv
          cases (descD (advanceClock s) (advanceClock s).clockHand).valid <;> simp
        by_cases hr : (descD (advanceClock s) (advanceClock s).clockHand).refbit = false
        · rw [if_pos hr] at h
          by_cases hp : (descD (advanceClock s) (advanceClock s).clockHand).pinCnt = 0
          · rw [if_pos hp] at h
            simp only [Option.some.injEq, Prod.mk.injEq] at h
            obtain ⟨rfl, rfl, rfl⟩ := h
            exact ⟨rfl, rfl, rfl, fun i => ⟨rfl, rfl, rfl, rfl, rfl, rfl⟩,
              fun _ => ⟨rfl, hp, hvt, hr, advanceClock_lt s⟩,
              fun hc => absurd hc (by decide)⟩
          · rw [if_neg hp] at h
            obtain ⟨hns, hpool, hlen, hpres, hfound, hnotfound⟩ := ih (advanceClock s) h
            refine ⟨hns, hpool, hlen, hpres, hfound, fun hf => ?_⟩
            obtain ⟨hht, hcase⟩ := hnotfound hf
            refine ⟨hht, ?_⟩
            cases hcase with
            | inl hl => exact Or.inl hl
            | inr hr2 => exact absurd hg hr2.2
        · rw [if_neg hr] at h
          obtain ⟨hns, hpool, hlen, hpres, hfound, hnotfound⟩ :=
            ih (setDesc (advanceClock s) (advanceClock s).clockHand
                (fun b => { b with refbit := false })) h
          have hnb : (setDesc (advanceClock s) (advanceClock s).clockHand
              (fun b => { b with refbit := false })).numBufs = s.numBufs :=
            numBufs_setDesc (advanceClock s) _ _
          have hpres' : descPreserved s s1 :=
            descPreserved_trans
              (descPreserved_clearRef (advanceClock s) (advanceClock s).clockHand) hpres
          refine ⟨hns, hpool,
            hlen.trans (length_setDesc (advanceClock s) _ _), hpres', fun hf => ?_,
            fun hf => ?_⟩
          · obtain ⟨a, b, c, d, e⟩ := hfound hf
            rw [hnb] at e
            exact ⟨a, b, c, d, e⟩
          · obtain ⟨hht, hcase⟩ := hnotfound hf
            refine ⟨hht, ?_⟩
            cases hcase with
            | inl hl =>
              obtain ⟨hl1, hl2⟩ := hl
              rw [hnb] at hl2
              exact Or.inl ⟨hl1, hl2⟩
            | inr hr2 => exact absurd hg hr2.2
    · rw [if_neg hg] at h
      simp only [Option.some.injEq, Prod.mk.injEq] at h
      obtain ⟨rfl, rfl, rfl⟩ := h
      exact ⟨rfl, rfl, rfl, descPreserved_refl s,
        fun hc => absurd hc (by decide), fun _ => ⟨rfl, Or.inr ⟨rfl, hg⟩⟩⟩

end BadgerDb

namespace BadgerDb

/-! ### The clock scan: fuel monotonicity and termination -/

theorem allocScan_mono (fuel fuel' bufs numScanned : Nat) (s : BufState)
    (out : BufState × Bool × Nat)
    (h : allocScan fuel bufs numScanned s = some out) (hle : fuel ≤ fuel') :
    allocScan fuel' bufs numScanned s = some out := by
  induction fuel generalizing s fuel' with
  | zero => simp [allocScan] at h
  | succ fuel ih =>
    obtain ⟨fuel'', rfl⟩ : ∃ k, fuel' = k + 1 := by
      cases fuel' with
      | zero => omega
      | succ k => exact ⟨k, rfl⟩
    rw [allocScan] at h ⊢
    by_cases hg : numScanned < 2 * bufs
    · rw [if_pos hg] at h ⊢
      dsimp only at h ⊢
      by_cases hv : (descD (advanceClock s) (advanceClock s).clockHand).valid = false
      · rw [if_pos hv] at h ⊢
        exact h
      · rw [if_neg hv] at h ⊢
        by_cases hr : (descD (advanceClock s) (advanceClock s).clockHand).refbit = false
        · rw [if_pos hr] at h ⊢
          by_cases hp : (descD (advanceClock s) (advanceClock s).clockHand).pinCnt = 0
          · rw [if_pos hp] at h ⊢
            exact h
          · rw [if_neg hp] at h ⊢
            exact ih _ _ h (by omega)
        · rw [if_neg hr] at h ⊢
          exact ih _ _ h (by omega)
    · rw [if_neg hg] at h ⊢
      exact h

/-- If the frame the clock hand reaches after `k+1` advances is unpinned and
carries no second chance (invalid or unreferenced), the scan breaks within
`k+1` iterations. -/
theorem allocScan_reach (k : Nat) :
    ∀ (s : BufState) (bufs i0 fuel : Nat), bufs = s.numBufs → 0 < bufs →
    i0 < bufs → (s.clockHand + k + 1) % bufs = i0 →
    (descD s i0).pinCnt = 0 →
    ((descD s i0).valid = false ∨ (descD s i0).refbit = false) →
    k + 1 ≤ fuel → ∃ out, allocScan fuel bufs 0 s = some out := by
  induction k with
  | zero =>
    intro s bufs i0 fuel hb h0 hi hk hpin hvr hf
    obtain ⟨f, rfl⟩ : ∃ f, fuel = f + 1 := ⟨fuel - 1, by omega⟩
    rw [allocScan, if_pos (by omega : (0:Nat) < 2 * bufs)]
    dsimp only
    have hch : (advanceClock s).clockHand = i0 := by
      show (s.clockHand + 1) % s.numBufs = i0
      rw [← hb]
      simpa using hk
    have hdesc : descD (advanceClock s) (advanceClock s).clockHand = descD s i0 := by
      rw [descD_advanceClock, hch]
    cases hvr with
    | inl hinv =>
      rw [if_pos (by rw [hdesc]; exact hinv)]
      exact ⟨_, rfl⟩
    | inr href =>
      by_cases hv : (descD (advanceClock s) (advanceClock s).clockHand).valid = false
      · rw [if_pos hv]
        exact ⟨_, rfl⟩
      · rw [if_neg hv, if_pos (by rw [hdesc]; exact href), if_pos (by rw [hdesc]; exact hpin)]
        exact ⟨_, rfl⟩
  | succ k ih =>
    intro s bufs i0 fuel hb h0 hi hk hpin hvr hf
    obtain ⟨f, rfl⟩ : ∃ f, fuel = f + 1 := ⟨fuel - 1, by omega⟩
    rw [allocScan, if_pos (by omega : (0:Nat) < 2 * bufs)]
    dsimp only
    have hlen0 : 0 < s.bufDescTable.length := by
      have := hb ▸ h0
      exact this
    have hch : (advanceClock s).clockHand < s.bufDescTable.length := advanceClock_lt s hlen0
    by_cases hv : (descD (advanceClock s) (advanceClock s).clockHand).valid = false
    · rw [if_pos hv]
      exact ⟨_, rfl⟩
    · rw [if_neg hv]
      by_cases hr : (descD (advanceClock s) (advanceClock s).clockHand).refbit = false
      · rw [if_pos hr]
        by_cases hp : (descD (advanceClock s) (advanceClock s).clockHand).pinCnt = 0
        · rw [if_pos hp]
          exact ⟨_, rfl⟩
        · rw [if_neg hp]
          refine ih (advanceClock s) bufs i0 f hb h0 hi ?_ hpin hvr (by omega)
          show ((s.clockHand + 1) % s.numBufs + k + 1) % bufs = i0
          rw [← hb, Nat.add_assoc, Nat.mod_add_mod]
          have harr : s.clockHand + 1 + (k + 1) = s.clockHand + (k + 1) + 1 := by omega
          rw [harr]
          exact hk
      · rw [if_neg hr]
        refine ih (setDesc (advanceClock s) (advanceClock s).clockHand
            (fun b => { b with refbit := false })) bufs i0 f ?_ h0 hi ?_ ?_ ?_ (by omega)
        · rw [hb]
          exact (numBufs_setDesc (advanceClock s) _ _).symm
        · show ((s.clockHand + 1) % s.numBufs + k + 1) % bufs = i0
          rw [← hb, Nat.add_assoc, Nat.mod_add_mod]
          have harr : s.clockHand + 1 + (k + 1) = s.clockHand + (k + 1) + 1 := by omega
          rw [harr]
          exact hk
        · have := (descPreserved_clearRef (advanceClock s) (advanceClock s).clockHand i0).1
          rw [this]
          exact hpin
        · by_cases hji : i0 = (advanceClock s).clockHand
          · subst hji
            rw [descD_setDesc_self (advanceClock s) (advanceClock s).clockHand _ hch]
            exact Or.inr rfl
          · rw [descD_setDesc_ne _ _ _ _ hji]
            exact hvr



end BadgerDb

namespace BadgerDb

/-- Any unpinned frame forces a break within (advances needed to reach it)
plus one further full pass: the first visit clears at most its refbit, the
second visit takes it. -/
theorem allocScan_reach2 (k : Nat) :
    ∀ (s : BufState) (bufs i0 fuel : Nat), bufs = s.numBufs → 0 < bufs →
    i0 < bufs → (s.clockHand + k + 1) % bufs = i0 →
    (descD s i0).pinCnt = 0 →
    k + 1 + bufs ≤ fuel → ∃ out, allocScan fuel bufs 0 s = some out := by
  induction k with
  | zero =>
    intro s bufs i0 fuel hb h0 hi hk hpin hf
    obtain ⟨f, rfl⟩ : ∃ f, fuel = f + 1 := ⟨fuel - 1, by omega⟩
    rw [allocScan, if_pos (by omega : (0:Nat) < 2 * bufs)]
    dsimp only
    have hch : (advanceClock s).clockHand = i0 := by
      show (s.clockHand + 1) % s.numBufs = i0
      rw [← hb]
      simpa using hk
    have hdesc : descD (advanceClock s) (advanceClock s).clockHand = descD s i0 := by
      rw [descD_advanceClock, hch]
    have hlen0 : 0 < s.bufDescTable.length := by have h0c := h0; rw [hb] at h0c; exact h0c
    by_cases hv : (descD (advanceClock s) (advanceClock s).clockHand).valid = false
    · rw [if_pos hv]
      exact ⟨_, rfl⟩
    · rw [if_neg hv]
      by_cases hr : (descD (advanceClock s) (advanceClock s).clockHand).refbit = false
      · rw [if_pos hr, if_pos (by rw [hdesc]; exact hpin)]
        exact ⟨_, rfl⟩
      · rw [if_neg hr]
        have hch' : (advanceClock s).clockHand < s.bufDescTable.length :=
          advanceClock_lt s hlen0
        refine allocScan_reach (bufs - 1)
          (setDesc (advanceClock s) (advanceClock s).clockHand
            (fun b => { b with refbit := false })) bufs i0 f ?_ h0 hi ?_ ?_ ?_ (by omega)
        · rw [hb]
          exact (numBufs_setDesc (advanceClock s) _ _).symm
        · show ((advanceClock s).clockHand + (bufs - 1) + 1) % bufs = i0
          rw [hch]
          have : i0 + (bufs - 1) + 1 = i0 + bufs := by omega
          rw [this, Nat.add_mod_right]
          exact Nat.mod_eq_of_lt hi
        · have := (descPreserved_clearRef (advanceClock s) (advanceClock s).clockHand i0).1
          rw [this]
          exact hpin
        · rw [← hch]
          rw [descD_setDesc_self (advanceClock s) (advanceClock s).clockHand _ hch']
          exact Or.inr rfl
  | succ k ih =>
    intro s bufs i0 fuel hb h0 hi hk hpin hf
    obtain ⟨f, rfl⟩ : ∃ f, fuel = f + 1 := ⟨fuel - 1, by omega⟩
    rw [allocScan, if_pos (by omega : (0:Nat) < 2 * bufs)]
    dsimp only
    have hlen0 : 0 < s.bufDescTable.length := by have h0c := h0; rw [hb] at h0c; exact h0c
    have hch : (advanceClock s).clockHand < s.bufDescTable.length := advanceClock_lt s hlen0
    by_cases hv : (descD (advanceClock s) (advanceClock s).clockHand).valid = false
    · rw [if_pos hv]
      exact ⟨_, rfl⟩
    · rw [if_neg hv]
      by_cases hr : (descD (advanceClock s) (advanceClock s).clockHand).refbit = false
      · rw [if_pos hr]
        by_cases hp : (descD (advanceClock s) (advanceClock s).clockHand).pinCnt = 0
        · rw [if_pos hp]
          exact ⟨_, rfl⟩
        · rw [if_neg hp]
          refine ih (advanceClock s) bufs i0 f hb h0 hi ?_ hpin (by omega)
          show ((s.clockHand + 1) % s.numBufs + k + 1) % bufs = i0
          rw [← hb, Nat.add_assoc, Nat.mod_add_mod]
          have harr : s.clockHand + 1 + (k + 1) = s.clockHand + (k + 1) + 1 := by omega
          rw [harr]
          exact hk
      · rw [if_neg hr]
        refine ih (setDesc (advanceClock s) (advanceClock s).clockHand
            (fun b => { b with refbit := false })) bufs i0 f ?_ h0 hi ?_ ?_ (by omega)
        · rw [hb]
          exact (numBufs_setDesc (advanceClock s) _ _).symm
        · show ((s.clockHand + 1) % s.numBufs + k + 1) % bufs = i0
          rw [← hb, Nat.add_assoc, Nat.mod_add_mod]
          have harr : s.clockHand + 1 + (k + 1) = s.clockHand + (k + 1) + 1 := by omega
          rw [harr]
          exact hk
        · have := (descPreserved_clearRef (advanceClock s) (advanceClock s).clockHand i0).1
          rw [this]
          exact hpin

/-- Whenever some frame (at an index below `numBufs`) is unpinned, the scan
loop of `allocBuf` breaks within `2 * numBufs` advances. -/
theorem allocScan_terminates (s : BufState) (bufs i0 : Nat) (hb : bufs = s.numBufs)
    (hi : i0 < bufs) (hpin : (descD s i0).pinCnt = 0) :
    ∃ out, allocScan (2 * bufs) bufs 0 s = some out := by
  have h0 : 0 < bufs := Nat.zero_lt_of_lt hi
  have hm : s.clockHand % bufs < bufs := Nat.mod_lt _ h0
  have hdiv : bufs * (s.clockHand / bufs) + s.clockHand % bufs = s.clockHand :=
    Nat.div_add_mod _ _
  by_cases hcase : s.clockHand % bufs < i0
  · have hk : (s.clockHand + (i0 - s.clockHand % bufs - 1) + 1) % bufs = i0 := by
      have heq : s.clockHand + (i0 - s.clockHand % bufs - 1) + 1 =
          bufs * (s.clockHand / bufs) + i0 := by
        generalize bufs * (s.clockHand / bufs) = Q at hdiv ⊢
        omega
      rw [heq, Nat.mul_add_mod, Nat.mod_eq_of_lt hi]
    exact allocScan_reach2 (i0 - s.clockHand % bufs - 1) s bufs i0 (2 * bufs)
      hb h0 hi hk hpin (by omega)
  · have hk : (s.clockHand + (i0 + bufs - s.clockHand % bufs - 1) + 1) % bufs = i0 := by
      have heq : s.clockHand + (i0 + bufs - s.clockHand % bufs - 1) + 1 =
          bufs * (s.clockHand / bufs) + (bufs + i0) := by
        generalize bufs * (s.clockHand / bufs) = Q at hdiv ⊢
        omega
      rw [heq, Nat.mul_add_mod]
      have : (bufs + i0) % bufs = i0 % bufs := Nat.add_mod_left bufs i0
      rw [this, Nat.mod_eq_of_lt hi]
    exact allocScan_reach2 (i0 + bufs - s.clockHand % bufs - 1) s bufs i0 (2 * bufs)
      hb h0 hi hk hpin (by omega)

end BadgerDb

namespace BadgerDb

/-! ### allocBuf: characterization and termination -/

theorem countP_ne_length_of_unpinned (s : BufState) (i0 : Nat) (hi : i0 < s.numBufs)
    (hpin : (descD s i0).pinCnt = 0) :
    ¬ s.bufDescTable.countP (fun b => decide (0 < b.pinCnt)) = s.numBufs := by
  intro hc
  have hall := List.countP_eq_length.mp hc
  have hmem : descD s i0 ∈ s.bufDescTable := by
    rw [descD, List.getD_eq_getElem s.bufDescTable defaultDesc hi]
    exact List.getElem_mem hi
  have := hall _ hmem
  rw [hpin] at this
  simp at this

theorem allocBufFuel_mono (fuel fuel' : Nat) (s : BufState)
    (out : Except BufErr FrameId × BufState × List IOEvent)
    (h : allocBufFuel fuel s = some out) (hle : fuel ≤ fuel') :
    allocBufFuel fuel' s = some out := by
  rw [allocBufFuel] at h ⊢
  dsimp only at h ⊢
  by_cases hpre : s.bufDescTable.countP (fun b => decide (0 < b.pinCnt)) = s.numBufs
  · rw [if_pos hpre] at h ⊢
    exact h
  · rw [if_neg hpre] at h ⊢
    rcases hE : allocScan fuel s.numBufs 0 s with _ | out1
    · rw [hE] at h
      simp at h
    · rw [hE] at h
      rw [allocScan_mono fuel fuel' s.numBufs 0 s out1 hE hle]
      exact h

/-- Success-path characterization of `allocBuf`: the victim is the final
clock hand, an in-range frame; the pool and all descriptor fields except
`refbit` are untouched; the victim is either a valid, unreferenced,
unpinned frame whose hash entry was removed, or an invalid frame (hash
untouched); the trace is exactly the conditional dirty write-back. -/
theorem allocBufFuel_ok (fuel : Nat) (s : BufState) (fr : FrameId) (s' : BufState)
    (tr : List IOEvent)
    (h : allocBufFuel fuel s = some (.ok fr, s', tr)) :
    fr = s'.clockHand ∧
    s'.bufPool = s.bufPool ∧
    s'.bufDescTable.length = s.bufDescTable.length ∧
    descPreserved s s' ∧
    0 < s.numBufs ∧ s'.clockHand < s.numBufs ∧
    (((descD s' s'.clockHand).valid = true ∧ (descD s' s'.clockHand).pinCnt = 0 ∧
        (descD s' s'.clockHand).refbit = false ∧
        s'.hashTable = htRemove s.hashTable (descD s' s'.clockHand).file
          (descD s' s'.clockHand).pageNo) ∨
      ((descD s' s'.clockHand).valid = false ∧ s'.hashTable = s.hashTable)) ∧
    tr = (if (descD s' s'.clockHand).dirty then
            [IOEvent.writePage (descD s' s'.clockHand).file (poolD s' s'.clockHand)]
          else []) := by
  rw [allocBufFuel] at h
  dsimp only at h
  by_cases hpre : s.bufDescTable.countP (fun b => decide (0 < b.pinCnt)) = s.numBufs
  · rw [if_pos hpre] at h
    simp at h
  · rw [if_neg hpre] at h
    have hn0 : 0 < s.numBufs := by
      by_contra hz
      apply hpre
      have hzero : s.numBufs = 0 := by omega
      have hnil : s.bufDescTable = [] := List.length_eq_zero.mp hzero
      rw [hnil, hzero]
      rfl
    rcases hE : allocScan fuel s.numBufs 0 s with _ | ⟨s1, found, ns⟩
    · rw [hE] at h
      simp at h
    · rw [hE] at h
      dsimp only at h
      obtain ⟨hns, hpool, hlen, hpres, hfound, hnotfound⟩ :=
        allocScan_spec fuel s.numBufs 0 s s1 found ns hE
      subst hns
      cases found with
      | true =>
        rw [if_neg (by simp)] at h
        simp only [Option.some.injEq, Prod.mk.injEq, Except.ok.injEq] at h
        obtain ⟨rfl, rfl, rfl⟩ := h
        obtain ⟨hht, hpin, hvalid, href, hbound⟩ := hfound rfl
        exact ⟨rfl, hpool, hlen, hpres, hn0, hbound hn0,
          Or.inl ⟨hvalid, hpin, href, hht⟩, rfl⟩
      | false =>
        obtain ⟨hht, hcase⟩ := hnotfound rfl
        cases hcase with
        | inr hguard => exact absurd (by omega : (0:Nat) < 2 * s.numBufs) hguard.2
        | inl hinv =>
          rw [if_neg (by rintro ⟨-, hle⟩; omega)] at h
          simp only [Option.some.injEq, Prod.mk.injEq, Except.ok.injEq] at h
          obtain ⟨rfl, rfl, rfl⟩ := h
          exact ⟨rfl, hpool, hlen, hpres, hn0, hinv.2 hn0,
            Or.inr ⟨hinv.1, hht⟩, rfl⟩

/-- With an unpinned frame in range, `allocBuf` succeeds with fuel
`2 * numBufs`. -/
theorem allocBufFuel_ok_of_unpinned (s : BufState) (i0 : Nat)
    (hi : i0 < s.numBufs) (hpin : (descD s i0).pinCnt = 0) :
    ∃ fr s' tr, allocBufFuel (2 * s.numBufs) s = some (.ok fr, s', tr) := by
  have hpre := countP_ne_length_of_unpinned s i0 hi hpin
  have hn0 : 0 < s.numBufs := Nat.zero_lt_of_lt hi
  obtain ⟨⟨s1, found, ns⟩, hE⟩ := allocScan_terminates s s.numBufs i0 rfl hi hpin
  obtain ⟨hns, _, _, _, _, hnotfound⟩ := allocScan_spec _ _ _ _ _ _ _ hE
  subst hns
  rw [allocBufFuel]
  dsimp only
  rw [if_neg hpre, hE]
  dsimp only
  cases found with
  | true =>
    rw [if_neg (by simp)]
    exact ⟨_, _, _, rfl⟩
  | false =>
    obtain ⟨_, hcase⟩ := hnotfound rfl
    cases hcase with
    | inl hinv =>
      rw [if_neg (by rintro ⟨-, hle⟩; omega)]
      exact ⟨_, _, _, rfl⟩
    | inr hguard => exact absurd (by omega : (0:Nat) < 2 * s.numBufs) hguard.2

end BadgerDb

namespace BadgerDb


end BadgerDb

namespace BadgerDb

/-! ### Claim theorems: error handling and single-operation contracts -/

/-- C2: on a `readPage` miss whose backing-store read fails, the failure is
propagated (`InvalidPageException`) and the entire pool state — hash table,
every frame descriptor, the page pool and the clock hand — is returned
exactly as it was before the call. -/
theorem readPage_miss_read_failure_state_unchanged (dsk : Disk) (fuel : Nat)
    (file : FileId) (pageNo : PageId) (s : BufState)
    (hmiss : htLookup s.hashTable (some file) pageNo = none)
    (hfail : dsk.readPage file pageNo = none) :
    readPageOp dsk fuel file pageNo s =
      some (.error .invalidPage, s, [.readPage file pageNo]) := by
  simp only [readPageOp, hmiss, hfail]

theorem readPage_miss_read_failure_state_unchanged_witness :
    htLookup (BufMgr.init 1).hashTable (some 5) 7 = none ∧
    noDisk.readPage 5 7 = none ∧
    readPageOp noDisk 1 5 7 (BufMgr.init 1) =
      some (Except.error BufErr.invalidPage, BufMgr.init 1, [IOEvent.readPage 5 7]) :=
  ⟨rfl, rfl, readPage_miss_read_failure_state_unchanged noDisk 1 5 7 (BufMgr.init 1) rfl rfl⟩

/-- C5 (code bug): `disposePage` on a page that is NOT cached does not
issue the delete — the unguarded hash lookup throws
`HashNotFoundException`, which propagates, and `File::deletePage` is never
called (empty trace), contradicting the function's own documentation
("Deletes a particular page from a file. If there was a frame, clears the
frame and hashtable first"). -/
theorem disposePage_uncached_throws_no_delete :
    disposePageOp 5 7 (BufMgr.init 1) =
      (.error .hashNotFound, BufMgr.init 1, []) := rfl

/-- C6 counterexample: disposing page 7 of file 5 while it is pinned
(pin count 1) does not fail with PagePinned — it succeeds, clears the
frame, removes the index entry and issues the delete. -/
theorem disposePage_pinned_succeeds_cex :
    0 < (descD onePinnedState 0).pinCnt ∧
    htLookup onePinnedState.hashTable (some 5) 7 = some 0 ∧
    disposePageOp 5 7 onePinnedState =
      (.ok (), c6DisposedState, [.deletePage 5 7]) :=
  ⟨by decide, rfl, rfl⟩

/-- C6 (amended): `disposePage` on a cached page performs no pin check:
whatever the pin count, it clears the frame descriptor, removes the
index entry and issues exactly one `deletePage`; no PagePinned failure
exists on this path. -/
theorem disposePage_cached_no_pin_check (file : FileId) (pageNo : PageId)
    (s : BufState) (frameNo : FrameId)
    (hlook : htLookup s.hashTable (some file) pageNo = some frameNo) :
    ∃ s', disposePageOp file pageNo s = (.ok (), s', [.deletePage file pageNo]) ∧
      descD s' frameNo = (descD s frameNo).Clear ∧
      htLookup s'.hashTable (some file) pageNo = none ∧
      (∀ j, j ≠ frameNo → descD s' j = descD s j) ∧
      s'.bufPool = s.bufPool ∧ s'.clockHand = s.clockHand := by
  refine ⟨{ setDesc s frameNo BufDesc.Clear with
            hashTable := htRemove s.hashTable (some file) pageNo }, ?_, ?_, ?_, ?_, rfl, rfl⟩
  · simp only [disposePageOp, hlook]
    rfl
  · show descD (setDesc s frameNo BufDesc.Clear) frameNo = (descD s frameNo).Clear
    by_cases hlt : frameNo < s.bufDescTable.length
    · rw [descD_setDesc_self s frameNo _ hlt]
    · have hge := Nat.le_of_not_lt hlt
      show (setDesc s frameNo BufDesc.Clear).bufDescTable.getD frameNo defaultDesc =
        (descD s frameNo).Clear
      rw [setDesc_oob s frameNo _ hge]
      show descD s frameNo = (descD s frameNo).Clear
      rw [descD_oob s frameNo hge]
      rfl
  · exact htLookup_remove_self s.hashTable (some file) pageNo
  · intro j hj
    show descD (setDesc s frameNo BufDesc.Clear) j = descD s j
    exact descD_setDesc_ne s frameNo j _ hj

theorem disposePage_cached_no_pin_check_witness :
    htLookup onePinnedState.hashTable (some 5) 7 = some 0 ∧
    ∃ s', disposePageOp 5 7 onePinnedState = (.ok (), s', [.deletePage 5 7]) ∧
      descD s' 0 = (descD onePinnedState 0).Clear ∧
      htLookup s'.hashTable (some 5) 7 = none ∧
      (∀ j, j ≠ 0 → descD s' j = descD onePinnedState j) ∧
      s'.bufPool = onePinnedState.bufPool ∧ s'.clockHand = onePinnedState.clockHand :=
  ⟨rfl, disposePage_cached_no_pin_check 5 7 onePinnedState 0 rfl⟩

end BadgerDb

namespace BadgerDb

/-- C4 counterexample: `allocBuf` succeeds on a reachable one-frame pool
(page cached then unpinned) yet the victim's descriptor is NOT reset to
the empty state: it still has `valid = true` and its owning file set. -/
theorem allocBuf_descriptor_not_reset_cex :
    allocBufFuel 2 oneUnpinnedState = some (.ok 0, c4VictimState, []) ∧
    (descD c4VictimState 0).valid = true ∧
    (descD c4VictimState 0).file = some 5 ∧
    (descD c4VictimState 0).pageNo = 7 := by
  refine ⟨?_, rfl, rfl, rfl⟩
  rfl

/-- C4 (amended): whenever `allocBuf` succeeds, a dirty victim's page is
written back to the backing store before the frame is repurposed, and a
valid victim's hash entry is removed — but the victim's descriptor is not
reset: `valid`, `pinCnt`, `dirty`, owning file and page id are exactly as
before the call (only the reference bit may have been cleared by the
scan). -/
theorem allocBuf_victim_writeback_not_reset (fuel : Nat) (s : BufState)
    (fr : FrameId) (s' : BufState) (tr : List IOEvent)
    (h : allocBufFuel fuel s = some (.ok fr, s', tr)) :
    ((descD s' fr).dirty = true →
        tr = [IOEvent.writePage (descD s' fr).file (poolD s' fr)]) ∧
    ((descD s' fr).dirty = false → tr = []) ∧
    (descD s' fr).valid = (descD s fr).valid ∧
    (descD s' fr).pinCnt = (descD s fr).pinCnt ∧
    (descD s' fr).dirty = (descD s fr).dirty ∧
    (descD s' fr).file = (descD s fr).file ∧
    (descD s' fr).pageNo = (descD s fr).pageNo ∧
    ((descD s' fr).valid = true →
        s'.hashTable = htRemove s.hashTable (descD s fr).file (descD s fr).pageNo) := by
  obtain ⟨hfr, hpool, hlen, hpres, hn0, hbound, hdisj, htr⟩ := allocBufFuel_ok fuel s fr s' tr h
  subst hfr
  obtain ⟨hpin, hvalid, hfile, hpage, hdirty, hframe⟩ := hpres s'.clockHand
  refine ⟨fun hd => by rw [htr, if_pos hd], fun hd => by rw [htr, if_neg (by rw [hd]; simp)],
    hvalid, hpin, hdirty, hfile, hpage, fun hv => ?_⟩
  cases hdisj with
  | inl hl =>
    rw [← hfile, ← hpage]
    exact hl.2.2.2
  | inr hr => rw [hv] at hr; exact absurd hr.1 (by simp)

theorem allocBuf_victim_writeback_not_reset_witness :
    allocBufFuel 2 oneUnpinnedState = some (.ok 0, c4VictimState, []) ∧
    (descD c4VictimState 0).valid = (descD oneUnpinnedState 0).valid ∧
    (descD c4VictimState 0).file = (descD oneUnpinnedState 0).file := by
  obtain ⟨-, -, hv, -, -, hf, -, -⟩ :=
    allocBuf_victim_writeback_not_reset 2 oneUnpinnedState 0 c4VictimState [] rfl
  exact ⟨rfl, hv, hf⟩

/-- C10: when every frame is pinned, `allocPage` fails with
BufferExceeded and the pool state is returned unchanged — but the backing
store was already asked to allocate the page (the `allocatePage` call is in
the trace): the fresh page id is neither registered in the pool nor
returned to the caller, so the backing-file page is leaked. -/
theorem allocPage_exhausted_leaks_backing_page (dsk : Disk) (fuel : Nat)
    (file : FileId) (s : BufState)
    (hall : ∀ b ∈ s.bufDescTable, 0 < b.pinCnt) :
    allocPageOp dsk fuel file s =
      some (.error .bufferExceeded, s, [.allocatePage file]) := by
  have hpre : s.bufDescTable.countP (fun b => decide (0 < b.pinCnt)) = s.numBufs :=
    List.countP_eq_length.mpr (fun b hb => by simpa using hall b hb)
  have hbuf : allocBufFuel fuel s = some (.error .bufferExceeded, s, []) := by
    rw [allocBufFuel]
    dsimp only
    rw [if_pos hpre]
  simp only [allocPageOp, hbuf]

theorem allocPage_exhausted_leaks_backing_page_witness :
    (∀ b ∈ onePinnedState.bufDescTable, 0 < b.pinCnt) ∧
    allocPageOp diskFive 2 5 onePinnedState =
      some (Except.error BufErr.bufferExceeded, onePinnedState, [IOEvent.allocatePage 5]) :=
  ⟨by decide, allocPage_exhausted_leaks_backing_page diskFive 2 5 onePinnedState (by decide)⟩

/-- C3: whenever not every frame is pinned (some frame in range has pin
count zero), `allocBuf` terminates with a victim within fuel `2 * numBufs`
— i.e. at most two full passes of clock-hand advances — and supplying any
larger fuel does not change the outcome: the scan never goes past the
two-pass bound and cannot loop forever (and the `PoolExhausted` failure
can only arise when no victim is found, which never happens under this
precondition). -/
theorem allocBuf_terminates_within_two_passes (s : BufState) (i0 : Nat)
    (hi : i0 < s.numBufs) (hpin : (descD s i0).pinCnt = 0) :
    (∃ fr s' tr, allocBufFuel (2 * s.numBufs) s = some (Except.ok fr, s', tr)) ∧
    (∀ fuel, 2 * s.numBufs ≤ fuel →
      allocBufFuel fuel s = allocBufFuel (2 * s.numBufs) s) := by
  obtain ⟨fr, s', tr, hok⟩ := allocBufFuel_ok_of_unpinned s i0 hi hpin
  refine ⟨⟨fr, s', tr, hok⟩, fun fuel hf => ?_⟩
  rw [allocBufFuel_mono (2 * s.numBufs) fuel s _ hok hf, hok]

theorem allocBuf_terminates_within_two_passes_witness :
    (0 < (BufMgr.init 1).numBufs ∧ (descD (BufMgr.init 1) 0).pinCnt = 0) ∧
    (∃ fr s' tr, allocBufFuel (2 * (BufMgr.init 1).numBufs) (BufMgr.init 1) =
        some (Except.ok fr, s', tr)) ∧
    (∀ fuel, 2 * (BufMgr.init 1).numBufs ≤ fuel →
      allocBufFuel fuel (BufMgr.init 1) =
        allocBufFuel (2 * (BufMgr.init 1).numBufs) (BufMgr.init 1)) :=
  ⟨⟨by decide, by decide⟩,
   allocBuf_terminates_within_two_passes (BufMgr.init 1) 0 (by decide) (by decide)⟩

end BadgerDb

namespace BadgerDb

/-- C8: for a cached page, `unPinPage` with pin count zero fails with
PageNotPinned and changes nothing; with a positive pin count it decrements
the pin count by exactly one, sets the dirty bit when `markDirty` is true
and leaves the dirty bit unchanged when it is false (never clearing it),
touching no other frame and no other state. -/
theorem unPinPage_decrement_sticky_dirty (file : FileId) (pageNo : PageId)
    (d : Bool) (s : BufState) (frameNo : FrameId)
    (hlook : htLookup s.hashTable (some file) pageNo = some frameNo) :
    ((descD s frameNo).pinCnt = 0 →
        unPinPageOp file pageNo d s =
          (.error (.pageNotPinned file pageNo frameNo), s, [])) ∧
    (0 < (descD s frameNo).pinCnt →
        ∃ s', unPinPageOp file pageNo d s = (.ok (), s', []) ∧
          (descD s' frameNo).pinCnt + 1 = (descD s frameNo).pinCnt ∧
          (descD s' frameNo).dirty = (d || (descD s frameNo).dirty) ∧
          (descD s' frameNo).valid = (descD s frameNo).valid ∧
          (descD s' frameNo).refbit = (descD s frameNo).refbit ∧
          (descD s' frameNo).file = (descD s frameNo).file ∧
          (descD s' frameNo).pageNo = (descD s frameNo).pageNo ∧
          (∀ j, j ≠ frameNo → descD s' j = descD s j) ∧
          s'.hashTable = s.hashTable ∧ s'.bufPool = s.bufPool ∧
          s'.clockHand = s.clockHand) := by
  constructor
  · intro hz
    simp only [unPinPageOp, hlook, if_pos hz]
  · intro hpos
    have hlt : frameNo < s.bufDescTable.length := descD_pos_lt s frameNo hpos
    have hnz : ¬ (descD s frameNo).pinCnt = 0 := by omega
    have hstep : unPinPageOp file pageNo d s = (.ok (),
        (if d then
           setDesc (setDesc s frameNo (fun b => { b with pinCnt := b.pinCnt - 1 }))
             frameNo (fun b => { b with dirty := true })
         else setDesc s frameNo (fun b => { b with pinCnt := b.pinCnt - 1 })), []) := by
      simp only [unPinPageOp, hlook, if_neg hnz]
    have hlt1 : frameNo <
        (setDesc s frameNo (fun b => { b with pinCnt := b.pinCnt - 1 })).bufDescTable.length := by
      rw [length_setDesc]
      exact hlt
    cases d with
    | false =>
      refine ⟨_, hstep, ?_⟩
      rw [if_neg (by simp)] at *
      rw [descD_setDesc_self s frameNo _ hlt]
      refine ⟨by dsimp only; omega, by simp, rfl, rfl, rfl, rfl, ?_, rfl, rfl, rfl⟩
      intro j hj
      exact descD_setDesc_ne s frameNo j _ hj
    | true =>
      refine ⟨_, hstep, ?_⟩
      rw [if_pos rfl] at *
      rw [descD_setDesc_self _ frameNo _ hlt1, descD_setDesc_self s frameNo _ hlt]
      refine ⟨by dsimp only; omega, by simp, rfl, rfl, rfl, rfl, ?_, rfl, rfl, rfl⟩
      intro j hj
      rw [descD_setDesc_ne _ frameNo j _ hj]
      exact descD_setDesc_ne s frameNo j _ hj

theorem unPinPage_decrement_sticky_dirty_witness :
    htLookup onePinnedState.hashTable (some 5) 7 = some 0 ∧
    (0 < (descD onePinnedState 0).pinCnt →
      ∃ s', unPinPageOp 5 7 false onePinnedState = (.ok (), s', []) ∧
        (descD s' 0).pinCnt + 1 = (descD onePinnedState 0).pinCnt ∧
        (descD s' 0).dirty = (false || (descD onePinnedState 0).dirty) ∧
        (descD s' 0).valid = (descD onePinnedState 0).valid ∧
        (descD s' 0).refbit = (descD onePinnedState 0).refbit ∧
        (descD s' 0).file = (descD onePinnedState 0).file ∧
        (descD s' 0).pageNo = (descD onePinnedState 0).pageNo ∧
        (∀ j, j ≠ 0 → descD s' j = descD onePinnedState j) ∧
        s'.hashTable = onePinnedState.hashTable ∧ s'.bufPool = onePinnedState.bufPool ∧
        s'.clockHand = onePinnedState.clockHand) :=
  ⟨rfl, (unPinPage_decrement_sticky_dirty 5 7 false onePinnedState 0 rfl).2⟩

/-- Any successful `readPage` leaves the page's hash entry pointing at the
returned frame, and preserves the descriptor-table length. -/
theorem readPageOp_ok_lookup (dsk : Disk) (fuel : Nat) (file : FileId)
    (pageNo : PageId) (s : BufState) (fr : FrameId) (s1 : BufState)
    (tr : List IOEvent)
    (h : readPageOp dsk fuel file pageNo s = some (.ok fr, s1, tr)) :
    htLookup s1.hashTable (some file) pageNo = some fr ∧
    s1.bufDescTable.length = s.bufDescTable.length := by
  rcases hmiss : htLookup s.hashTable (some file) pageNo with _ | fr0
  · rw [readPageOp] at h
    rw [hmiss] at h
    dsimp only at h
    rcases hread : dsk.readPage file pageNo with _ | p
    · rw [hread] at h
      simp at h
    · rw [hread] at h
      dsimp only at h
      rcases hab : allocBufFuel fuel s with _ | ⟨r, sA, trA⟩
      · rw [hab] at h
        simp at h
      · rw [hab] at h
        rcases r with e | frA
        · simp at h
        · dsimp only at h
          simp only [Option.some.injEq, Prod.mk.injEq, Except.ok.injEq] at h
          obtain ⟨rfl, rfl, rfl⟩ := h
          obtain ⟨-, -, hlen, -⟩ := allocBufFuel_ok fuel s frA sA trA hab
          constructor
          · exact htLookup_cons_self _ (some file) pageNo frA
          · rw [length_setDesc]
            show sA.bufDescTable.length = s.bufDescTable.length
            exact hlen
  · rw [readPageOp] at h
    rw [hmiss] at h
    dsimp only at h
    simp only [Option.some.injEq, Prod.mk.injEq, Except.ok.injEq] at h
    obtain ⟨rfl, rfl, rfl⟩ := h
    constructor
    · show htLookup s.hashTable (some file) pageNo = some fr0
      exact hmiss
    · exact length_setDesc s fr0 _

/-- C7: after any successful fetch of (file, pageNo) returning frame `fr`,
an immediate second fetch — with any disk oracle and any fuel — returns the
same frame `fr`, increments that frame's pin count by exactly one, sets its
refbit, performs no backing-store call (empty trace) and changes nothing
else. -/
theorem readPage_hit_same_frame_no_io (dsk dsk' : Disk) (fuel fuel' : Nat)
    (file : FileId) (pageNo : PageId) (s : BufState) (fr : FrameId)
    (s1 : BufState) (tr : List IOEvent)
    (hfr : fr < s.bufDescTable.length)
    (h : readPageOp dsk fuel file pageNo s = some (.ok fr, s1, tr)) :
    ∃ s2, readPageOp dsk' fuel' file pageNo s1 = some (.ok fr, s2, []) ∧
      (descD s2 fr).pinCnt = (descD s1 fr).pinCnt + 1 ∧
      (descD s2 fr).refbit = true ∧
      (∀ j, j ≠ fr → descD s2 j = descD s1 j) ∧
      s2.hashTable = s1.hashTable ∧ s2.bufPool = s1.bufPool ∧
      s2.clockHand = s1.clockHand := by
  obtain ⟨hlook, hlen⟩ := readPageOp_ok_lookup dsk fuel file pageNo s fr s1 tr h
  have hlt : fr < s1.bufDescTable.length := by rw [hlen]; exact hfr
  refine ⟨setDesc s1 fr (fun b => { b with refbit := true, pinCnt := b.pinCnt + 1 }),
    ?_, ?_, ?_, ?_, rfl, rfl, rfl⟩
  · simp only [readPageOp, hlook]
  · rw [descD_setDesc_self s1 fr _ hlt]
  · rw [descD_setDesc_self s1 fr _ hlt]
  · intro j hj
    exact descD_setDesc_ne s1 fr j _ hj

theorem readPage_hit_same_frame_no_io_witness :
    (0 < (BufMgr.init 1).bufDescTable.length ∧
     readPageOp diskFive 2 5 7 (BufMgr.init 1) =
       some (Except.ok 0, onePinnedState, [IOEvent.readPage 5 7])) ∧
    ∃ s2, readPageOp diskFive 2 5 7 onePinnedState = some (Except.ok 0, s2, []) ∧
      (descD s2 0).pinCnt = (descD onePinnedState 0).pinCnt + 1 ∧
      (descD s2 0).refbit = true ∧
      (∀ j, j ≠ 0 → descD s2 j = descD onePinnedState j) ∧
      s2.hashTable = onePinnedState.hashTable ∧ s2.bufPool = onePinnedState.bufPool ∧
      s2.clockHand = onePinnedState.clockHand :=
  ⟨⟨by decide, rfl⟩,
   readPage_hit_same_frame_no_io diskFive diskFive 2 2 5 7 (BufMgr.init 1) 0
     onePinnedState [IOEvent.readPage 5 7] (by decide) rfl⟩

end BadgerDb

namespace BadgerDb

/-! ### Reachable-state invariants -/

theorem htLookup_mem (ht : HashTbl) (f : Option FileId) (p : PageId) (fr : FrameId)
    (h : htLookup ht f p = some fr) : (f, p, fr) ∈ ht := by
  unfold htLookup at h
  rcases hE : ht.find? (fun e => decide (e.1 = f ∧ e.2.1 = p)) with _ | e
  · rw [hE] at h
    exact absurd h (by simp)
  · rw [hE] at h
    obtain ⟨e1, e2, e3⟩ := e
    have hpred := List.find?_some hE
    simp only [decide_eq_true_eq] at hpred
    obtain ⟨h1, h2⟩ := hpred
    have h3 : e3 = fr := by simpa using h
    subst h1
    subst h2
    subst h3
    exact List.mem_of_find?_eq_some hE

theorem htMem_remove_key (ht : HashTbl) (f : Option FileId) (p : PageId)
    (e : Option FileId × PageId × FrameId) (h : e ∈ htRemove ht f p) :
    ¬ (e.1 = f ∧ e.2.1 = p) := by
  intro hc
  have hp := List.of_mem_filter h
  rw [hc.1, hc.2] at hp
  simp at hp

theorem inv_init (bufs : Nat) : InvPin (BufMgr.init bufs) ∧ InvHash (BufMgr.init bufs) := by
  constructor
  · intro i hv
    by_cases hlt : i < (BufMgr.init bufs).bufDescTable.length
    · show ((BufMgr.init bufs).bufDescTable.getD i defaultDesc).pinCnt = 0
      rw [List.getD_eq_getElem _ _ hlt]
      simp [BufMgr.init, defaultDesc]
    · rw [descD_oob _ _ (Nat.le_of_not_lt hlt)]
      rfl
  · intro e he
    exact absurd he (by simp [BufMgr.init])

/-- `allocBuf` can fail only through the all-pinned precondition check,
which leaves the state untouched and performs no I/O. -/
theorem allocBufFuel_error (fuel : Nat) (s : BufState) (e : BufErr)
    (s1 : BufState) (tr : List IOEvent)
    (h : allocBufFuel fuel s = some (.error e, s1, tr)) :
    e = .bufferExceeded ∧ s1 = s ∧ tr = [] := by
  rw [allocBufFuel] at h
  dsimp only at h
  by_cases hpre : s.bufDescTable.countP (fun b => decide (0 < b.pinCnt)) = s.numBufs
  · rw [if_pos hpre] at h
    simp only [Option.some.injEq, Prod.mk.injEq, Except.error.injEq] at h
    obtain ⟨rfl, rfl, rfl⟩ := h
    exact ⟨rfl, rfl, rfl⟩
  · rw [if_neg hpre] at h
    have hn0 : 0 < s.numBufs := by
      by_contra hz
      apply hpre
      have hzero : s.numBufs = 0 := by omega
      have hnil : s.bufDescTable = [] := List.length_eq_zero.mp hzero
      rw [hnil, hzero]
      rfl
    rcases hE : allocScan fuel s.numBufs 0 s with _ | ⟨sS, found, ns⟩
    · rw [hE] at h
      simp at h
    · rw [hE] at h
      dsimp only at h
      obtain ⟨hns, -, -, -, -, hnotfound⟩ := allocScan_spec fuel s.numBufs 0 s sS found ns hE
      subst hns
      cases found with
      | true =>
        rw [if_neg (by simp)] at h
        simp at h
      | false =>
        obtain ⟨-, hcase⟩ := hnotfound rfl
        cases hcase with
        | inr hguard => exact absurd (by omega : (0:Nat) < 2 * s.numBufs) hguard.2
        | inl hinv =>
          rw [if_neg (by rintro ⟨-, hle⟩; omega)] at h
          simp at h

/-- Installing a fresh page into an `allocBuf` victim (hash insert plus
`Set`) preserves both invariants. -/
theorem inv_install (fuel : Nat) (s sA : BufState) (fr : FrameId)
    (trA : List IOEvent)
    (hab : allocBufFuel fuel s = some (.ok fr, sA, trA))
    (hPin : InvPin s) (hHash : InvHash s)
    (f : FileId) (p : PageId) (T : BufState)
    (hdesc : T.bufDescTable = sA.bufDescTable.set fr ((descD sA fr).Set f p))
    (hhash : T.hashTable = (some f, p, fr) :: sA.hashTable) :
    InvPin T ∧ InvHash T := by
  obtain ⟨hfr, -, hlen, hpres, hn0, hbound, hdisj, -⟩ := allocBufFuel_ok fuel s fr sA trA hab
  have hfrA : fr < sA.bufDescTable.length := by
    rw [hlen]
    rw [hfr]
    exact hbound
  have hTlen : T.bufDescTable.length = sA.bufDescTable.length := by
    rw [hdesc, List.length_set]
  have hTeq : ∀ j, descD T j = descD (setDesc sA fr (fun b => b.Set f p)) j := by
    intro j
    rw [descD, hdesc]
    rfl
  have hTget : descD T fr = (descD sA fr).Set f p := by
    rw [hTeq fr, descD_setDesc_self sA fr _ hfrA]
  have hTother : ∀ j, j ≠ fr → descD T j = descD sA j := by
    intro j hj
    rw [hTeq j, descD_setDesc_ne sA fr j _ hj]
  have hnotfr : ∀ e, e ∈ sA.hashTable → e.2.2 ≠ fr := by
    intro e he hefr
    cases hdisj with
    | inl hl =>
      rw [hl.2.2.2] at he
      have hkey := htMem_remove_key _ _ _ _ he
      have hmem := htMem_remove _ _ _ _ he
      obtain ⟨-, -, hfile, hpage⟩ := hHash e hmem
      obtain ⟨hpinEq, hvalidEq, hfileEq, hpageEq, -, -⟩ := hpres e.2.2
      apply hkey
      constructor
      · rw [← hfile, ← hfileEq, hefr, hfr]
      · rw [← hpage, ← hpageEq, hefr, hfr]
    | inr hr =>
      rw [hr.2] at he
      obtain ⟨-, hvalid, -, -⟩ := hHash e he
      obtain ⟨-, hvalidEq, -, -, -, -⟩ := hpres e.2.2
      have hvA : (descD sA e.2.2).valid = true := by
        rw [hvalidEq]
        exact hvalid
      rw [hefr, hfr, hr.1] at hvA
      exact absurd hvA (by simp)
  constructor
  · intro i hv
    by_cases hif : i = fr
    · subst hif
      rw [hTget] at hv
      exact absurd hv (by simp [BufDesc.Set])
    · rw [hTother i hif] at hv ⊢
      obtain ⟨hpinEq, hvalidEq, -, -, -, -⟩ := hpres i
      rw [hvalidEq] at hv
      rw [hpinEq]
      exact hPin i hv
  · intro e he
    rw [hhash] at he
    rcases List.mem_cons.mp he with rfl | htl
    · refine ⟨by rw [hTlen]; exact hfrA, ?_, ?_, ?_⟩
      · rw [hTget]
        rfl
      · rw [hTget]
        rfl
      · rw [hTget]
        rfl
    · have hne := hnotfr e htl
      have heS : e ∈ s.hashTable := by
        cases hdisj with
        | inl hl =>
          rw [hl.2.2.2] at htl
          exact htMem_remove _ _ _ _ htl
        | inr hr =>
          rw [hr.2] at htl
          exact htl
      obtain ⟨hlt, hvalid, hfile, hpage⟩ := hHash e heS
      obtain ⟨hpinEq, hvalidEq, hfileEq, hpageEq, -, -⟩ := hpres e.2.2
      rw [hTother e.2.2 hne]
      refine ⟨?_, ?_, ?_, ?_⟩
      · rw [hTlen, hlen]
        exact hlt
      · rw [hvalidEq]
        exact hvalid
      · rw [hfileEq]
        exact hfile
      · rw [hpageEq]
        exact hpage

end BadgerDb

namespace BadgerDb

/-- Updating a single descriptor without touching `valid`, `file` or
`pageNo` preserves both invariants, provided the update cannot pin an
invalid frame. -/
theorem inv_setDesc_keep (s : BufState) (i : Nat) (g : BufDesc → BufDesc)
    (hPin : InvPin s) (hHash : InvHash s)
    (hvalid : ∀ b, (g b).valid = b.valid)
    (hfile : ∀ b, (g b).file = b.file)
    (hpage : ∀ b, (g b).pageNo = b.pageNo)
    (hpin0 : (g (descD s i)).valid = false → (g (descD s i)).pinCnt = 0) :
    InvPin (setDesc s i g) ∧ InvHash (setDesc s i g) := by
  by_cases hlt : i < s.bufDescTable.length
  · constructor
    · intro j hv
      by_cases hij : j = i
      · subst hij
        rw [descD_setDesc_self s j g hlt] at hv ⊢
        exact hpin0 hv
      · rw [descD_setDesc_ne s i j g hij] at hv ⊢
        exact hPin j hv
    · intro e he
      have heS : e ∈ s.hashTable := he
      obtain ⟨hlt2, hv2, hf2, hp2⟩ := hHash e heS
      by_cases hij : e.2.2 = i
      · rw [hij, descD_setDesc_self s i g hlt]
        rw [hij] at hlt2 hv2 hf2 hp2
        refine ⟨by rw [length_setDesc]; exact hlt2, ?_, ?_, ?_⟩
        · rw [hvalid (descD s i)]
          exact hv2
        · rw [hfile (descD s i)]
          exact hf2
        · rw [hpage (descD s i)]
          exact hp2
      · rw [descD_setDesc_ne s i e.2.2 g hij]
        exact ⟨by rw [length_setDesc]; exact hlt2, hv2, hf2, hp2⟩
  · have hge := Nat.le_of_not_lt hlt
    have hsame : ∀ j, descD (setDesc s i g) j = descD s j := by
      intro j
      rw [descD, setDesc_oob s i g hge]
      rfl
    constructor
    · intro j hv
      rw [hsame j] at hv ⊢
      exact hPin j hv
    · intro e he
      have heS : e ∈ s.hashTable := he
      obtain ⟨hlt2, hv2, hf2, hp2⟩ := hHash e heS
      rw [hsame e.2.2]
      refine ⟨?_, hv2, hf2, hp2⟩
      show e.2.2 < (s.bufDescTable.set i (g (descD s i))).length
      rw [List.length_set]
      exact hlt2

theorem inv_readPage (dsk : Disk) (fuel : Nat) (f : FileId) (p : PageId)
    (s : BufState) (r : Except BufErr FrameId) (s' : BufState) (tr : List IOEvent)
    (h : readPageOp dsk fuel f p s = some (r, s', tr))
    (hPin : InvPin s) (hHash : InvHash s) : InvPin s' ∧ InvHash s' := by
  rcases hmiss : htLookup s.hashTable (some f) p with _ | fr0
  · rw [readPageOp] at h
    rw [hmiss] at h
    dsimp only at h
    rcases hread : dsk.readPage f p with _ | pg
    · rw [hread] at h
      simp only [Option.some.injEq, Prod.mk.injEq] at h
      obtain ⟨-, rfl, -⟩ := h
      exact ⟨hPin, hHash⟩
    · rw [hread] at h
      dsimp only at h
      rcases hab : allocBufFuel fuel s with _ | ⟨rA, sA, trA⟩
      · rw [hab] at h
        simp at h
      · rw [hab] at h
        rcases rA with e | frA
        · dsimp only at h
          simp only [Option.some.injEq, Prod.mk.injEq] at h
          obtain ⟨-, rfl, -⟩ := h
          obtain ⟨-, rfl, -⟩ := allocBufFuel_error fuel s e sA trA hab
          exact ⟨hPin, hHash⟩
        · dsimp only at h
          simp only [Option.some.injEq, Prod.mk.injEq] at h
          obtain ⟨-, rfl, -⟩ := h
          exact inv_install fuel s sA frA trA hab hPin hHash f p _ rfl rfl
  · rw [readPageOp] at h
    rw [hmiss] at h
    dsimp only at h
    simp only [Option.some.injEq, Prod.mk.injEq] at h
    obtain ⟨-, rfl, -⟩ := h
    obtain ⟨hlt, hvalid, -, -⟩ := hHash (some f, p, fr0) (htLookup_mem _ _ _ _ hmiss)
    refine inv_setDesc_keep s fr0 _ hPin hHash (fun b => rfl) (fun b => rfl) (fun b => rfl) ?_
    intro hv
    have hv' : (descD s fr0).valid = false := hv
    rw [hvalid] at hv'
    exact absurd hv' (by simp)

theorem inv_unPinPage (f : FileId) (p : PageId) (d : Bool) (s : BufState)
    (r : Except BufErr Unit) (s' : BufState) (tr : List IOEvent)
    (h : unPinPageOp f p d s = (r, s', tr))
    (hPin : InvPin s) (hHash : InvHash s) : InvPin s' ∧ InvHash s' := by
  rcases hmiss : htLookup s.hashTable (some f) p with _ | fr0
  · rw [unPinPageOp] at h
    rw [hmiss] at h
    dsimp only at h
    simp only [Prod.mk.injEq] at h
    obtain ⟨-, rfl, -⟩ := h
    exact ⟨hPin, hHash⟩
  · rw [unPinPageOp] at h
    rw [hmiss] at h
    dsimp only at h
    by_cases hz : (descD s fr0).pinCnt = 0
    · rw [if_pos hz] at h
      simp only [Prod.mk.injEq] at h
      obtain ⟨-, rfl, -⟩ := h
      exact ⟨hPin, hHash⟩
    · rw [if_neg hz] at h
      simp only [Prod.mk.injEq] at h
      obtain ⟨-, rfl, -⟩ := h
      have hdec := inv_setDesc_keep s fr0 (fun b => { b with pinCnt := b.pinCnt - 1 })
        hPin hHash (fun b => rfl) (fun b => rfl) (fun b => rfl)
        (fun hv => by
          have hv' : (descD s fr0).valid = false := hv
          have := hPin fr0 hv'
          dsimp only
          omega)
      cases d with
      | false => exact hdec
      | true =>
        refine inv_setDesc_keep _ fr0 (fun b => { b with dirty := true })
          hdec.1 hdec.2 (fun b => rfl) (fun b => rfl) (fun b => rfl) ?_
        intro hv
        exact hdec.1 fr0 hv

theorem inv_disposePage (f : FileId) (p : PageId) (s : BufState)
    (r : Except BufErr Unit) (s' : BufState) (tr : List IOEvent)
    (h : disposePageOp f p s = (r, s', tr))
    (hPin : InvPin s) (hHash : InvHash s) : InvPin s' ∧ InvHash s' := by
  rcases hmiss : htLookup s.hashTable (some f) p with _ | fr0
  · rw [disposePageOp] at h
    rw [hmiss] at h
    dsimp only at h
    simp only [Prod.mk.injEq] at h
    obtain ⟨-, rfl, -⟩ := h
    exact ⟨hPin, hHash⟩
  · rw [disposePageOp] at h
    rw [hmiss] at h
    dsimp only at h
    simp only [Prod.mk.injEq] at h
    obtain ⟨-, rfl, -⟩ := h
    obtain ⟨hlt, hvalid, hfile, hpage⟩ := hHash (some f, p, fr0) (htLookup_mem _ _ _ _ hmiss)
    have hsame : ∀ j, j ≠ fr0 →
        descD { setDesc s fr0 BufDesc.Clear with
                hashTable := htRemove (setDesc s fr0 BufDesc.Clear).hashTable (some f) p } j =
          descD s j := by
      intro j hj
      show descD (setDesc s fr0 BufDesc.Clear) j = descD s j
      exact descD_setDesc_ne s fr0 j _ hj
    have hself :
        descD { setDesc s fr0 BufDesc.Clear with
                hashTable := htRemove (setDesc s fr0 BufDesc.Clear).hashTable (some f) p } fr0 =
          (descD s fr0).Clear := by
      show descD (setDesc s fr0 BufDesc.Clear) fr0 = (descD s fr0).Clear
      exact descD_setDesc_self s fr0 _ hlt
    constructor
    · intro i hv
      by_cases hif : i = fr0
      · subst hif
        rw [hself]
        rfl
      · rw [hsame i hif] at hv ⊢
        exact hPin i hv
    · intro e he
      have heS : e ∈ s.hashTable := htMem_remove _ _ _ _ he
      have hkey := htMem_remove_key _ _ _ _ he
      obtain ⟨hlt2, hv2, hf2, hp2⟩ := hHash e heS
      have hne : e.2.2 ≠ fr0 := by
        intro hc
        apply hkey
        constructor
        · rw [← hf2, hc]
          exact hfile
        · rw [← hp2, hc]
          exact hpage
      rw [hsame e.2.2 hne]
      refine ⟨?_, hv2, hf2, hp2⟩
      show e.2.2 < (setDesc s fr0 BufDesc.Clear).bufDescTable.length
      rw [length_setDesc]
      exact hlt2

theorem inv_allocPage (dsk : Disk) (fuel : Nat) (f : FileId) (s : BufState)
    (r : Except BufErr (PageId × FrameId)) (s' : BufState) (tr : List IOEvent)
    (h : allocPageOp dsk fuel f s = some (r, s', tr))
    (hPin : InvPin s) (hHash : InvHash s) : InvPin s' ∧ InvHash s' := by
  rw [allocPageOp] at h
  dsimp only at h
  rcases hab : allocBufFuel fuel s with _ | ⟨rA, sA, trA⟩
  · rw [hab] at h
    simp at h
  · rw [hab] at h
    rcases rA with e | frA
    · dsimp only at h
      simp only [Option.some.injEq, Prod.mk.injEq] at h
      obtain ⟨-, rfl, -⟩ := h
      obtain ⟨-, rfl, -⟩ := allocBufFuel_error fuel s e sA trA hab
      exact ⟨hPin, hHash⟩
    · dsimp only at h
      simp only [Option.some.injEq, Prod.mk.injEq] at h
      obtain ⟨-, rfl, -⟩ := h
      exact inv_install fuel s sA frA trA hab hPin hHash f
        (dsk.allocatePage f).page_number _ rfl rfl

theorem inv_of_reach (s : BufState) (h : Reach s) : InvPin s ∧ InvHash s := by
  induction h with
  | init bufs => exact inv_init bufs
  | read dsk fuel f p s r s' tr hs hstep ih =>
    exact inv_readPage dsk fuel f p s r s' tr hstep ih.1 ih.2
  | unpin f p d s r s' tr hs hstep ih =>
    exact inv_unPinPage f p d s r s' tr hstep ih.1 ih.2
  | alloc dsk fuel f s r s' tr hs hstep ih =>
    exact inv_allocPage dsk fuel f s r s' tr hstep ih.1 ih.2
  | dispose f p s r s' tr hs hstep ih =>
    exact inv_disposePage f p s r s' tr hstep ih.1 ih.2

/-- C1: in every pool state reachable by any sequence of fetch
(`readPage`), unpin, allocate and dispose operations, the victim frame a
successful `allocBuf` selects has pin count zero — a frame with
`pinCnt > 0` is never chosen for eviction. -/
theorem clock_never_evicts_pinned (s : BufState) (h : Reach s) (fuel : Nat)
    (fr : FrameId) (s' : BufState) (tr : List IOEvent)
    (hok : allocBufFuel fuel s = some (.ok fr, s', tr)) :
    (descD s fr).pinCnt = 0 := by
  obtain ⟨hPin, -⟩ := inv_of_reach s h
  obtain ⟨hfr, -, -, hpres, -, -, hdisj, -⟩ := allocBufFuel_ok fuel s fr s' tr hok
  subst hfr
  obtain ⟨hpinEq, hvalidEq, -, -, -, -⟩ := hpres s'.clockHand
  cases hdisj with
  | inl hl =>
    rw [← hpinEq]
    exact hl.2.1
  | inr hr =>
    have hv : (descD s s'.clockHand).valid = false := by
      rw [← hvalidEq]
      exact hr.1
    rw [← hpinEq]
    rw [hpinEq]
    exact hPin s'.clockHand hv

theorem clock_never_evicts_pinned_witness :
    Reach (BufMgr.init 1) ∧
    allocBufFuel 2 (BufMgr.init 1) = some (Except.ok 0, BufMgr.init 1, []) ∧
    (descD (BufMgr.init 1) 0).pinCnt = 0 :=
  ⟨Reach.init 1, rfl,
   clock_never_evicts_pinned (BufMgr.init 1) (Reach.init 1) 2 0 (BufMgr.init 1) [] rfl⟩

end BadgerDb

namespace BadgerDb

/-! ### flushFile: trace specification and loop lemmas -/

theorem flushTrace_succ (s : BufState) (fid : FileId) (i k : Nat) :
    flushTrace s fid i (k+1) =
      (if (descD s i).file == some fid && (descD s i).dirty
       then [IOEvent.writePage (some fid) (poolD s i)] else []) ++
        flushTrace s fid (i+1) k := by
  unfold flushTrace
  rw [List.range'_succ, List.filter_cons]
  by_cases h : ((descD s i).file == some fid && (descD s i).dirty) = true
  · rw [if_pos h, if_pos h, List.map_cons]
    rfl
  · rw [if_neg h, if_neg h, List.nil_append]

theorem flushTrace_congr (s1 s2 : BufState) (fid : FileId) (k : Nat) :
    ∀ i, (∀ j, i ≤ j → j < i + k → descD s1 j = descD s2 j) →
    s1.bufPool = s2.bufPool →
    flushTrace s1 fid i k = flushTrace s2 fid i k := by
  induction k with
  | zero =>
    intro i _ _
    rfl
  | succ k ih =>
    intro i hd hp
    rw [flushTrace_succ, flushTrace_succ]
    rw [hd i (Nat.le_refl i) (by omega)]
    have hpl : poolD s1 i = poolD s2 i := by
      rw [poolD, poolD, hp]
    rw [hpl, ih (i+1) (fun j h1 h2 => hd j (by omega) (by omega)) hp]

/-- One matching, valid, unpinned iteration of the `flushFile` loop:
optional write-back, hash removal, descriptor clear, then the next index. -/
theorem flushFrames_step_match (fid : FileId) (k i : Nat) (s : BufState)
    (tr0 : List IOEvent)
    (hlen : i < s.bufDescTable.length)
    (hmatch : (descD s i).file = some fid)
    (hvalid : (descD s i).valid = true)
    (hpin : (descD s i).pinCnt = 0) :
    flushFrames fid (k+1) i s tr0 =
      flushFrames fid k (i+1)
        { bufDescTable := s.bufDescTable.set i ((descD s i).Clear),
          bufPool := s.bufPool,
          hashTable := htRemove s.hashTable (some fid) (descD s i).pageNo,
          clockHand := s.clockHand }
        (tr0 ++ (if (descD s i).dirty
                 then [IOEvent.writePage (descD s ((descD s i).frameNo)).file
                         (poolD s ((descD s i).frameNo))]
                 else [])) := by
  rw [flushFrames]
  dsimp only
  rw [if_pos hmatch, if_neg (by rw [hvalid]; simp), if_neg (by rw [hpin]; simp)]
  by_cases hd : (descD s i).dirty = true
  · rw [if_pos hd, if_pos hd, if_pos hd]
    congr 1
    · show setDesc { setDesc s i (fun b => { b with dirty := false }) with
          hashTable := htRemove (setDesc s i (fun b => { b with dirty := false })).hashTable
            (some fid) (descD s i).pageNo } i BufDesc.Clear = _
      show BufState.mk _ _ _ _ = BufState.mk _ _ _ _
      congr 1
      show (s.bufDescTable.set i _).set i _ = s.bufDescTable.set i ((descD s i).Clear)
      rw [List.set_set]
      congr 1
      show BufDesc.Clear (descD { setDesc s i (fun b => { b with dirty := false }) with
          hashTable := htRemove (setDesc s i (fun b => { b with dirty := false })).hashTable
            (some fid) (descD s i).pageNo } i) = _
      have hmid : descD { setDesc s i (fun b => { b with dirty := false }) with
          hashTable := htRemove (setDesc s i (fun b => { b with dirty := false })).hashTable
            (some fid) (descD s i).pageNo } i = { descD s i with dirty := false } := by
        show descD (setDesc s i (fun b => { b with dirty := false })) i = _
        rw [descD_setDesc_self s i _ hlen]
      rw [hmid]
      rfl
  · have hdf : (descD s i).dirty = false := by
      revert hd
      cases (descD s i).dirty <;> simp
    rw [if_neg (by rw [hdf]; simp), if_neg (by rw [hdf]; simp), if_neg (by rw [hdf]; simp)]
    rw [List.append_nil]
    rfl

end BadgerDb

namespace BadgerDb

/-- Loop invariant for the success path of `flushFile`: from index `i` with
`k` frames left, if every remaining frame of `fid` is valid, unpinned and
has consistent `frameNo` bookkeeping, the loop succeeds, emits exactly the
dirty write-backs of `[i, i+k)`, clears exactly the matching descriptors
and removes exactly the matching hash keys. -/
theorem flushFrames_ok (fid : FileId) (k : Nat) :
    ∀ (i : Nat) (s : BufState) (tr0 : List IOEvent),
    i + k = s.numBufs →
    (∀ j, i ≤ j → j < s.numBufs → (descD s j).file = some fid →
       (descD s j).valid = true ∧ (descD s j).pinCnt = 0 ∧ (descD s j).frameNo = j) →
    ∃ s', flushFrames fid k i s tr0 = (.ok (), s', tr0 ++ flushTrace s fid i k) ∧
      s'.bufDescTable.length = s.bufDescTable.length ∧
      s'.bufPool = s.bufPool ∧ s'.clockHand = s.clockHand ∧
      (∀ j, i ≤ j → j < s.numBufs → (descD s j).file = some fid →
         descD s' j = (descD s j).Clear) ∧
      (∀ j, j < i ∨ s.numBufs ≤ j ∨ (descD s j).file ≠ some fid →
         descD s' j = descD s j) ∧
      (∀ p', (∃ j, i ≤ j ∧ j < s.numBufs ∧ (descD s j).file = some fid ∧
                 (descD s j).pageNo = p') →
         htLookup s'.hashTable (some fid) p' = none) ∧
      (∀ f' p', (f' = some fid → ∀ j, i ≤ j → j < s.numBufs →
                   (descD s j).file = some fid → (descD s j).pageNo ≠ p') →
         htLookup s'.hashTable f' p' = htLookup s.hashTable f' p') := by
  induction k with
  | zero =>
    intro i s tr0 hik hpack
    refine ⟨s, ?_, rfl, rfl, rfl, ?_, fun j _ => rfl, ?_, fun f' p' _ => rfl⟩
    · rw [flushFrames]
      rw [show flushTrace s fid i 0 = [] from rfl, List.append_nil]
    · intro j h1 h2 _
      have hik' : i + 0 = s.numBufs := hik
      omega
    · intro p' hex
      obtain ⟨j, h1, h2, -, -⟩ := hex
      have hik' : i + 0 = s.numBufs := hik
      omega
  | succ k ih =>
    intro i s tr0 hik hpack
    have hin : i < s.numBufs := by omega
    by_cases hmatch : (descD s i).file = some fid
    · obtain ⟨hv, hp0, hfn⟩ := hpack i (Nat.le_refl i) hin hmatch
      have hleni : i < s.bufDescTable.length := hin
      rw [flushFrames_step_match fid k i s tr0 hleni hmatch hv hp0]
      set S : BufState :=
        { bufDescTable := s.bufDescTable.set i ((descD s i).Clear),
          bufPool := s.bufPool,
          hashTable := htRemove s.hashTable (some fid) (descD s i).pageNo,
          clockHand := s.clockHand } with hS
      have hSd : ∀ j, j ≠ i → descD S j = descD s j := by
        intro j hj
        rw [hS]
        show descD (setDesc s i BufDesc.Clear) j = descD s j
        exact descD_setDesc_ne s i j _ hj
      have hSi : descD S i = (descD s i).Clear := by
        rw [hS]
        show descD (setDesc s i BufDesc.Clear) i = (descD s i).Clear
        exact descD_setDesc_self s i _ hleni
      have hSn : S.numBufs = s.numBufs := by
        rw [hS]
        show (s.bufDescTable.set i ((descD s i).Clear)).length = s.bufDescTable.length
        rw [List.length_set]
      have hSpool : S.bufPool = s.bufPool := by
        rw [hS]
      have hSclock : S.clockHand = s.clockHand := by
        rw [hS]
      have hShash : S.hashTable = htRemove s.hashTable (some fid) (descD s i).pageNo := by
        rw [hS]
      obtain ⟨s', heq, hlen', hpool', hclock', hclear', hkeep', hnone', hpres'⟩ :=
        ih (i+1) S
          (tr0 ++ (if (descD s i).dirty
                   then [IOEvent.writePage (descD s ((descD s i).frameNo)).file
                           (poolD s ((descD s i).frameNo))]
                   else []))
          (by rw [hSn]; omega)
          (by
            intro j h1 h2 hf
            rw [hSn] at h2
            rw [hSd j (by omega)] at hf ⊢
            exact hpack j (by omega) h2 hf)
      have hbeq : ((descD s i).file == some fid) = true := by
        simp [hmatch]
      have htr : tr0 ++ (if (descD s i).dirty
              then [IOEvent.writePage (descD s ((descD s i).frameNo)).file
                      (poolD s ((descD s i).frameNo))]
              else []) ++
            flushTrace S fid (i+1) k =
          tr0 ++ flushTrace s fid i (k+1) := by
        rw [flushTrace_congr S s fid k (i+1) (fun j h1 h2 => hSd j (by omega)) hSpool]
        rw [flushTrace_succ, hbeq, Bool.true_and]
        rw [hfn, hmatch]
        by_cases hd : (descD s i).dirty = true
        · rw [if_pos hd, List.append_assoc]
        · have hdf : (descD s i).dirty = false := by
            revert hd
            cases (descD s i).dirty <;> simp
          rw [hdf]
          rw [if_neg (show ¬ (false = true) by simp), List.append_nil, List.nil_append]
      refine ⟨s', ?_, ?_, by rw [hpool', hSpool], by rw [hclock', hSclock], ?_, ?_, ?_, ?_⟩
      · rw [heq, htr]
      · rw [hlen', hS]
        show (s.bufDescTable.set i ((descD s i).Clear)).length = s.bufDescTable.length
        rw [List.length_set]
      · intro j h1 h2 hf
        by_cases hij : j = i
        · subst hij
          rw [hkeep' j (Or.inl (by omega)), hSi]
        · have h1' : i + 1 ≤ j := by omega
          rw [hclear' j h1' (by rw [hSn]; exact h2) (by rw [hSd j hij]; exact hf),
            hSd j hij]
      · intro j hj
        have hij : j ≠ i := by
          rcases hj with h | h | h
          · omega
          · omega
          · intro hc
            rw [hc] at h
            exact h hmatch
        rw [← hSd j hij]
        apply hkeep'
        rcases hj with h | h | h
        · exact Or.inl (by omega)
        · exact Or.inr (Or.inl (by rw [hSn]; exact h))
        · exact Or.inr (Or.inr (by rw [hSd j hij]; exact h))
      · intro p' hex
        obtain ⟨j, hj1, hj2, hjm, hjp⟩ := hex
        by_cases hex2 : ∃ j2, i + 1 ≤ j2 ∧ j2 < s.numBufs ∧
            (descD s j2).file = some fid ∧ (descD s j2).pageNo = p'
        · obtain ⟨j2, g1, g2, g3, g4⟩ := hex2
          exact hnone' p' ⟨j2, g1, by rw [hSn]; exact g2, by rw [hSd j2 (by omega)]; exact g3,
            by rw [hSd j2 (by omega)]; exact g4⟩
        · have hpi : p' = (descD s i).pageNo := by
            by_cases hji : j = i
            · rw [← hjp, hji]
            · exact absurd ⟨j, by omega, hj2, hjm, hjp⟩ hex2
          rw [hpres' (some fid) p' (by
            intro hco j2 g1 g2 g3 g4
            rw [hSn] at g2
            rw [hSd j2 (by omega)] at g3 g4
            exact hex2 ⟨j2, g1, g2, g3, g4⟩)]
          rw [hShash, hpi]
          exact htLookup_remove_self s.hashTable (some fid) (descD s i).pageNo
      · intro f' p' hno
        rw [hpres' f' p' (by
          intro hf j2 g1 g2 g3 g4
          rw [hSn] at g2
          rw [hSd j2 (by omega)] at g3 g4
          exact hno hf j2 (by omega) g2 g3 g4)]
        rw [hShash]
        apply htLookup_remove_ne
        intro hc
        obtain ⟨hc1, hc2⟩ := hc
        exact hno hc1 i (Nat.le_refl i) hin hmatch hc2.symm
    · rw [flushFrames]
      dsimp only
      rw [if_neg hmatch]
      obtain ⟨s', heq, hlen', hpool', hclock', hclear', hkeep', hnone', hpres'⟩ :=
        ih (i+1) s tr0 (by omega) (fun j h1 h2 hf => hpack j (by omega) h2 hf)
      have htr : flushTrace s fid i (k+1) = flushTrace s fid (i+1) k := by
        rw [flushTrace_succ]
        rw [if_neg (by simp [hmatch]), List.nil_append]
      refine ⟨s', ?_, hlen', hpool', hclock', ?_, ?_, ?_, ?_⟩
      · rw [heq, htr]
      · intro j h1 h2 hf
        have h1' : i + 1 ≤ j := by
          rcases Nat.eq_or_lt_of_le h1 with rfl | h
          · exact absurd hf hmatch
          · omega
        exact hclear' j h1' h2 hf
      · intro j hj
        apply hkeep'
        rcases hj with h | h | h
        · by_cases hij : j = i
          · subst hij
            exact Or.inr (Or.inr hmatch)
          · exact Or.inl (by omega)
        · exact Or.inr (Or.inl h)
        · exact Or.inr (Or.inr h)
      · intro p' hex
        obtain ⟨j, hj1, hj2, hjm, hjp⟩ := hex
        have hj1' : i + 1 ≤ j := by
          rcases Nat.eq_or_lt_of_le hj1 with rfl | h
          · exact absurd hjm hmatch
          · omega
        exact hnone' p' ⟨j, hj1', hj2, hjm, hjp⟩
      · intro f' p' hno
        exact hpres' f' p' (fun hf j g1 g2 g3 => hno hf j (by omega) g2 g3)

end BadgerDb

namespace BadgerDb

/-- Loop invariant for the pinned-abort path of `flushFile`: if frame `i0`
of `fid` is valid and pinned while all earlier matching frames are valid,
unpinned and consistent, the loop throws PagePinned naming frame `i0` and
leaves frame `i0` and every later frame untouched. -/
theorem flushFrames_pinned (fid : FileId) (k : Nat) :
    ∀ (i i0 : Nat) (s : BufState) (tr0 : List IOEvent),
    i + k = s.numBufs → i ≤ i0 → i0 < s.numBufs →
    (descD s i0).file = some fid → (descD s i0).valid = true →
    0 < (descD s i0).pinCnt → (descD s i0).frameNo = i0 →
    (∀ j, i ≤ j → j < i0 → (descD s j).file = some fid →
       (descD s j).valid = true ∧ (descD s j).pinCnt = 0 ∧ (descD s j).frameNo = j) →
    ∃ s' tr, flushFrames fid k i s tr0 =
        (.error (.pagePinned fid (descD s i0).pageNo i0), s', tr) ∧
      (∀ j, i0 ≤ j → descD s' j = descD s j) := by
  induction k with
  | zero =>
    intro i i0 s tr0 hik hle hlt hm hv hp hfn hpack
    have hik' : i + 0 = s.numBufs := hik
    omega
  | succ k ih =>
    intro i i0 s tr0 hik hle hlt hm hv hp hfn hpack
    by_cases hii : i = i0
    · subst hii
      rw [flushFrames]
      dsimp only
      rw [if_pos hm, if_neg (by rw [hv]; simp), if_pos hp]
      refine ⟨s, tr0, ?_, fun j _ => rfl⟩
      rw [hfn]
    · have hii' : i < i0 := by omega
      by_cases hmatch : (descD s i).file = some fid
      · obtain ⟨hvi, hp0i, hfni⟩ := hpack i (Nat.le_refl i) hii' hmatch
        have hleni : i < s.bufDescTable.length := by
          show i < s.numBufs
          omega
        rw [flushFrames_step_match fid k i s tr0 hleni hmatch hvi hp0i]
        set S : BufState :=
          { bufDescTable := s.bufDescTable.set i ((descD s i).Clear),
            bufPool := s.bufPool,
            hashTable := htRemove s.hashTable (some fid) (descD s i).pageNo,
            clockHand := s.clockHand } with hS
        have hSd : ∀ j, j ≠ i → descD S j = descD s j := by
          intro j hj
          rw [hS]
          show descD (setDesc s i BufDesc.Clear) j = descD s j
          exact descD_setDesc_ne s i j _ hj
        have hSn : S.numBufs = s.numBufs := by
          rw [hS]
          show (s.bufDescTable.set i ((descD s i).Clear)).length = s.bufDescTable.length
          rw [List.length_set]
        obtain ⟨s', tr, heq, hpres⟩ :=
          ih (i+1) i0 S
            (tr0 ++ (if (descD s i).dirty
                     then [IOEvent.writePage (descD s ((descD s i).frameNo)).file
                             (poolD s ((descD s i).frameNo))]
                     else []))
            (by rw [hSn]; omega) (by omega) (by rw [hSn]; exact hlt)
            (by rw [hSd i0 (by omega)]; exact hm)
            (by rw [hSd i0 (by omega)]; exact hv)
            (by rw [hSd i0 (by omega)]; exact hp)
            (by rw [hSd i0 (by omega)]; exact hfn)
            (by
              intro j h1 h2 hf
              rw [hSd j (by omega)] at hf ⊢
              exact hpack j (by omega) h2 hf)
        rw [hSd i0 (by omega)] at heq
        refine ⟨s', tr, heq, ?_⟩
        intro j hj
        rw [hpres j hj, hSd j (by omega)]
      · rw [flushFrames]
        dsimp only
        rw [if_neg hmatch]
        exact ih (i+1) i0 s tr0 (by omega) (by omega) hlt hm hv hp hfn
          (fun j h1 h2 hf => hpack j (by omega) h2 hf)

end BadgerDb

namespace BadgerDb

/-- C9: for a file whose frames satisfy the pool's bookkeeping invariants
(consistent `frameNo`, matching frames valid, hash entries consistent):
if no cached frame of the file is pinned, `flushFile` succeeds, writes
back exactly the dirty frames owned by the file — each exactly once, in
index order, never a clean one (`flushTrace`) — removes every index entry
of the file and resets every matching descriptor to the empty state; if
instead some cached frame of the file is pinned (the first such),
`flushFile` fails with PagePinned naming that frame and leaves that frame
and every later frame untouched. -/
theorem flushFile_flushes_dirty_or_pinned_aborts (fid : FileId) (s : BufState)
    (hframe : ∀ i, i < s.numBufs → (descD s i).frameNo = i)
    (hvalid : ∀ i, i < s.numBufs → (descD s i).file = some fid →
       (descD s i).valid = true)
    (hHash : InvHash s) :
    ((∀ i, i < s.numBufs → (descD s i).file = some fid → (descD s i).pinCnt = 0) →
      ∃ s', flushFileOp fid s = (.ok (), s', flushTrace s fid 0 s.numBufs) ∧
        (∀ i, i < s.numBufs → (descD s i).file = some fid →
           descD s' i = (descD s i).Clear) ∧
        (∀ i, (descD s i).file ≠ some fid → descD s' i = descD s i) ∧
        (∀ p, htLookup s'.hashTable (some fid) p = none) ∧
        s'.bufPool = s.bufPool ∧ s'.clockHand = s.clockHand) ∧
    (∀ i0, i0 < s.numBufs → (descD s i0).file = some fid →
      0 < (descD s i0).pinCnt →
      (∀ j, j < i0 → (descD s j).file = some fid → (descD s j).pinCnt = 0) →
      ∃ s' tr, flushFileOp fid s =
          (.error (.pagePinned fid (descD s i0).pageNo i0), s', tr) ∧
        (∀ j, i0 ≤ j → descD s' j = descD s j)) := by
  constructor
  · intro hnopin
    obtain ⟨s', heq, hlen, hpool, hclock, hclear, hkeep, hnone, hpres⟩ :=
      flushFrames_ok fid s.numBufs 0 s [] (by omega)
        (fun j _ h2 hf => ⟨hvalid j h2 hf, hnopin j h2 hf, hframe j h2⟩)
    refine ⟨s', ?_, ?_, ?_, ?_, hpool, hclock⟩
    · show flushFrames fid s.numBufs 0 s [] = _
      rw [heq, List.nil_append]
    · intro i h1 h2
      exact hclear i (Nat.zero_le i) h1 h2
    · intro i hne
      exact hkeep i (Or.inr (Or.inr hne))
    · intro p
      by_cases hex : ∃ j, 0 ≤ j ∧ j < s.numBufs ∧ (descD s j).file = some fid ∧
          (descD s j).pageNo = p
      · exact hnone p hex
      · rw [hpres (some fid) p (fun _ j h1 h2 h3 h4 => hex ⟨j, h1, h2, h3, h4⟩)]
        rcases hlk : htLookup s.hashTable (some fid) p with _ | fr
        · rfl
        · exfalso
          have hmem := htLookup_mem _ _ _ _ hlk
          obtain ⟨hltf, hvf, hff, hpf⟩ := hHash _ hmem
          exact hex ⟨fr, Nat.zero_le fr, hltf, hff, hpf⟩
  · intro i0 h1 h2 h3 h4
    obtain ⟨s', tr, heq, hpres⟩ :=
      flushFrames_pinned fid s.numBufs 0 i0 s [] (by omega) (Nat.zero_le i0) h1 h2
        (hvalid i0 h1 h2) h3 (hframe i0 h1)
        (fun j _ hj2 hf => ⟨hvalid j (by omega) hf, h4 j hj2 hf, hframe j (by omega)⟩)
    exact ⟨s', tr, heq, hpres⟩

theorem flushFile_flushes_dirty_or_pinned_aborts_witness :
    InvHash oneUnpinnedState ∧
    ∃ s', flushFileOp 5 oneUnpinnedState =
        (.ok (), s', flushTrace oneUnpinnedState 5 0 oneUnpinnedState.numBufs) ∧
      (∀ i, i < oneUnpinnedState.numBufs → (descD oneUnpinnedState i).file = some 5 →
         descD s' i = (descD oneUnpinnedState i).Clear) ∧
      (∀ i, (descD oneUnpinnedState i).file ≠ some 5 →
         descD s' i = descD oneUnpinnedState i) ∧
      (∀ p, htLookup s'.hashTable (some 5) p = none) ∧
      s'.bufPool = oneUnpinnedState.bufPool ∧
      s'.clockHand = oneUnpinnedState.clockHand :=
  ⟨by unfold InvHash; decide,
   (flushFile_flushes_dirty_or_pinned_aborts 5 oneUnpinnedState
      (by decide) (by decide) (by unfold InvHash; decide)).1 (by decide)⟩

end BadgerDb
